import Mathlib

/-!
# Rewrite rules of the graph optimizer

A shallow embedding of

* `include/onnxruntime/core/optimizer/rewrite_rule.h` (class `RewriteRule`),
* `onnxruntime/core/optimizer/conv_add_fusion.cc` (`ConvAddFusion::SatisfyCondition`
  and `ConvAddFusion::Apply`),
* `onnxruntime/core/optimizer/identity_elimination.h` and `slice_elimination.h` (the
  class declarations of `EliminateIdentity` and `EliminateSlice`),

together with the part of the graph IR these files call into and the rewrite driver
that consults the rules.  The graph IR (`Graph`, `Node`, `NodeArg`), `graph_utils`,
`Initializer` and the driver are not among the embedded sources; their definitions
below follow the design document and are marked as such.

Conventions.

* A `Node&` is the index of a live slot of the node arena; a dangling reference has
  no behaviour.
* Reference out-parameters (`bool& modified`, `bool& deleted`, `Graph& graph`) are
  passed in and returned.
* Undefined behaviour of the C++ (null dereference, `operator[]` out of range) is the
  result `none`.
* The element type of tensor payloads is a parameter `α` with an addition; IEEE
  single/double precision is one instance.
-/

namespace onnxruntime

/-! ## Data model -/

/-- The result type `common::Status`: success, or an error with a message. -/
inductive Status where
  | OK
  | Error (msg : String)
deriving DecidableEq, Repr

/-- Index of a node in the arena of its graph. -/
abbrev NodeIndex := Nat

/-- Value of `ONNX_NAMESPACE::TensorProto_DataType_FLOAT`. -/
def TensorProto_DataType_FLOAT : Int := 1

/-- Value of `ONNX_NAMESPACE::TensorProto_DataType_DOUBLE`. -/
def TensorProto_DataType_DOUBLE : Int := 11

/-- The serialized tensor `ONNX_NAMESPACE::TensorProto`, reduced to the fields the
rules read: name, element type, dimension list and payload. -/
structure TensorProto (α : Type) where
  name : String
  data_type : Int
  dims : List Int
  data : List α
deriving DecidableEq, Repr

/-- Modelled from the spec: `NodeArg`, identified by its unique name, with an optional
shape.  Nodes refer to a NodeArg by name; the graph owns it. -/
structure NodeArg where
  name : String
  shape : Option (List Int)
deriving DecidableEq, Repr

/-- Modelled from the spec: `Node`.  The stable index of a node is its position in the
arena of the graph.  `input_defs` and `output_defs` are the names of the NodeArgs in
slot order, `input_arg_count` is the count per input slot. -/
structure Node where
  op_type : String
  since_version : Int
  domain : String
  input_defs : List String
  output_defs : List String
  input_arg_count : List Int
  execution_provider_type : String
deriving DecidableEq, Repr

/-- Modelled from the spec: `Graph`.  The node arena is indexed and a removed node
leaves a tombstone (`none`), so that indices are never reassigned; the NodeArg and
initializer registries are looked up by name; the declared graph inputs and outputs
are lists of NodeArg names. -/
structure Graph (α : Type) where
  nodes : List (Option Node)
  node_args : List NodeArg
  initializers : List (TensorProto α)
  graph_inputs : List String
  graph_outputs : List String
deriving DecidableEq, Repr

/-- An edge `(producer node index, output slot) → (consumer node index, input slot)`. -/
structure Edge where
  src : NodeIndex
  src_arg : Nat
  dst : NodeIndex
  dst_arg : Nat
deriving DecidableEq, Repr

variable {α : Type}

/-! ## Graph IR: topology queries -/

/-- Modelled from the spec: `Graph::GetNode`, resolve a node by index; a tombstone or
an index outside the arena resolves to nothing. -/
def Graph.GetNode (g : Graph α) (i : NodeIndex) : Option Node :=
  match g.nodes[i]? with
  | some (some n) => some n
  | _ => none

/-- The live nodes of the arena with their indices, in index order. -/
def Graph.liveNodes (g : Graph α) : List (NodeIndex × Node) :=
  g.nodes.enum.filterMap fun p => p.2.map fun n => (p.1, n)

/-- Number of live nodes. -/
def Graph.NumberOfNodes (g : Graph α) : Nat :=
  g.liveNodes.length

/-- The edges from producer `p` (node `pn`) to consumer `c` (node `cn`): one for every
output slot of the producer and input slot of the consumer that carry the same
NodeArg. -/
def edgesBetween (p : NodeIndex) (pn : Node) (c : NodeIndex) (cn : Node) : List Edge :=
  pn.output_defs.enum.flatMap fun o =>
    cn.input_defs.enum.filterMap fun i =>
      if o.2 = i.2 then some ⟨p, o.1, c, i.1⟩ else none

/-- Modelled from the spec: the edge set of a graph is derived from the live nodes,
not stored.  Edges are listed by producer index, then consumer index, then output
slot, then input slot. -/
def Graph.edges (g : Graph α) : List Edge :=
  g.liveNodes.flatMap fun p =>
    g.liveNodes.flatMap fun c => edgesBetween p.1 p.2 c.1 c.2

/-- The edges leaving node `i`, ordered by consumer index. -/
def Graph.OutputEdges (g : Graph α) (i : NodeIndex) : List Edge :=
  g.edges.filter fun e => e.src == i

/-- The edges entering node `i`, ordered by producer index. -/
def Graph.InputEdges (g : Graph α) (i : NodeIndex) : List Edge :=
  g.edges.filter fun e => e.dst == i

/-- Modelled from the spec: `Node::GetOutputEdgesCount`, the number of outgoing
edges of a node. -/
def Graph.GetOutputEdgesCount (g : Graph α) (i : NodeIndex) : Nat :=
  (g.OutputEdges i).length

/-- Modelled from the spec: `Node::GetInputEdgesCount`, the number of incoming edges
of a node. -/
def Graph.GetInputEdgesCount (g : Graph α) (i : NodeIndex) : Nat :=
  (g.InputEdges i).length

/-- Modelled from the spec: `Node::OutputNodesBegin` dereferenced, the consumer at the
end of the first outgoing edge.  Dereferencing the iterator of a node without
outgoing edges has no behaviour. -/
def Graph.OutputNodesBegin (g : Graph α) (i : NodeIndex) : Option NodeIndex :=
  (g.OutputEdges i).head?.map fun e => e.dst

/-- Modelled from the spec: `graph_utils::IsSupportedOptypeVersionAndDomain`, test
whether the operator type, version and domain of a node match an expected tuple. -/
def IsSupportedOptypeVersionAndDomain (node : Node) (op_type : String) (version : Int)
    (domain : String) : Bool :=
  node.op_type == op_type && node.since_version == version && node.domain == domain

/-- Modelled from the spec: `Graph::IsNodeOutputsInGraphOutputs`, test whether any
output of a node is a declared graph output. -/
def Graph.IsNodeOutputsInGraphOutputs (g : Graph α) (node : Node) : Bool :=
  node.output_defs.any fun o => g.graph_outputs.contains o

/-- Modelled from the spec: `Graph::GetInitializedTensor`, resolve an initializer by
NodeArg name; the pointer stays null when the name is not registered. -/
def Graph.GetInitializedTensor (g : Graph α) (name : String) : Option (TensorProto α) :=
  g.initializers.find? fun t => t.name == name

/-- Modelled from the spec: `Graph::GetNodeArg`, look a NodeArg up by name; null when
there is none. -/
def Graph.GetNodeArg (g : Graph α) (name : String) : Option NodeArg :=
  g.node_args.find? fun a => a.name == name

/-! ## Graph IR: mutation -/

/-- Modelled from the spec: `Graph::RemoveInitializedTensor`, remove a named
initializer. -/
def Graph.RemoveInitializedTensor (g : Graph α) (name : String) : Graph α :=
  { g with initializers := g.initializers.filter fun t => !(t.name == name) }

/-- Modelled from the spec: `Graph::AddInitializedTensor`, add a named initializer,
replacing one registered under the same name. -/
def Graph.AddInitializedTensor (g : Graph α) (t : TensorProto α) : Graph α :=
  { g with initializers := (g.initializers.filter fun u => !(u.name == t.name)) ++ [t] }

/-- Modelled from the spec: `NodeArg::SetShape` on the NodeArg registered under
`name`: overwrite its shape.  Every node sees the change, as NodeArgs are shared. -/
def Graph.SetShape (g : Graph α) (name : String) (shape : List Int) : Graph α :=
  { g with node_args := g.node_args.map fun a =>
      if a.name == name then { a with shape := some shape } else a }

/-- Write through a `Node&`: replace the live node at index `i`. -/
def Graph.setNode (g : Graph α) (i : NodeIndex) (n : Node) : Graph α :=
  { g with nodes := g.nodes.set i (some n) }

/-- Replace every input that names one of `outs` by `x`. -/
def rewireInputs (outs : List String) (x : String) (n : Node) : Node :=
  { n with input_defs := n.input_defs.map fun d => if d ∈ outs then x else d }

/-- Modelled from the spec: `graph_utils::RemoveSingleInputNode`, the single-input
splice-out.  It removes a node that has exactly one incoming edge and rewires every
consumer input that read an output of the removed node to the producer output that
the removed node read through that edge.  The removed slot becomes a tombstone.  The
result says whether the splice-out took place; when the node does not have exactly one
incoming edge nothing is changed. -/
def RemoveSingleInputNode (g : Graph α) (i : NodeIndex) : Bool × Graph α :=
  match g.GetNode i, g.InputEdges i with
  | some node, [e] =>
    match node.input_defs[e.dst_arg]? with
    | some x =>
      (true, { g with nodes := (g.nodes.map (Option.map (rewireInputs node.output_defs x))).set i none })
    | none => (false, g)
  | _, _ => (false, g)

/-! ## Initializer arithmetic -/

/-- Modelled from the spec: `Initializer`, the typed view over a raw initializer. -/
structure Initializer (α : Type) where
  name_ : String
  data_type_ : Int
  dims_ : List Int
  data_ : List α
deriving DecidableEq, Repr

/-- Modelled from the spec: `Initializer::IsSupportedDataType`.  The supported element
types are IEEE single and double precision; everything else, an absent tensor
included, is rejected. -/
def Initializer.IsSupportedDataType (t : Option (TensorProto α)) : Bool :=
  match t with
  | none => false
  | some t => t.data_type == TensorProto_DataType_FLOAT || t.data_type == TensorProto_DataType_DOUBLE

/-- Modelled from the spec: the constructor of `Initializer`, a view of a raw
initializer; it validates the element type. -/
def Initializer.ofProto (t : TensorProto α) : Option (Initializer α) :=
  if Initializer.IsSupportedDataType (some t) then some ⟨t.name, t.data_type, t.dims, t.data⟩
  else none

/-- Modelled from the spec: `Initializer::size`, the element count given by the
dimension list. -/
def Initializer.size (a : Initializer α) : Int :=
  a.dims_.prod

/-- Modelled from the spec: `Initializer::add`, accumulate another view of identical
element count into this one, element by element. -/
def Initializer.add [Add α] (a b : Initializer α) : Initializer α :=
  { a with data_ := List.zipWith (fun x y => x + y) a.data_ b.data_ }

/-- Modelled from the spec: `Initializer::ToProto`, serialize the view back into a raw
initializer with the original name and dimensions. -/
def Initializer.ToProto (a : Initializer α) : TensorProto α :=
  ⟨a.name_, a.data_type_, a.dims_, a.data_⟩

/-! ## `rewrite_rule.h` -/

/-- What a rule leaves behind in the references it was called with, and its status. -/
structure RuleResult (G : Type) where
  status : Status
  graph : G
  modified : Bool
  deleted : Bool
deriving DecidableEq, Repr

/-- The class `RewriteRule`: the three fields fixed by the constructor and the two
virtual functions.  `SatisfyCondition` takes the graph and the node by const
reference, so it is a function to `Bool`. -/
structure RewriteRule (G : Type) where
  name_ : String
  desc_ : String
  target_op_types_ : List String
  SatisfyCondition : G → NodeIndex → Bool
  Apply : G → NodeIndex → Bool → Bool → Option (RuleResult G)

/-- `RewriteRule::Name`. -/
def RewriteRule.Name {G : Type} (r : RewriteRule G) : String := r.name_

/-- `RewriteRule::Description`. -/
def RewriteRule.Description {G : Type} (r : RewriteRule G) : String := r.desc_

/-- `RewriteRule::TargetOpTypes`. -/
def RewriteRule.TargetOpTypes {G : Type} (r : RewriteRule G) : List String := r.target_op_types_

/-- One call of `CheckConditionAndApply` as seen from outside: what the caller gets
back, and how many times the body of `Apply` was entered. -/
structure Invocation (G : Type) where
  result : Option (RuleResult G)
  applyCalls : Nat
deriving DecidableEq, Repr

/-- `RewriteRule::CheckConditionAndApply`:
`return SatisfyCondition(graph, node) ? Apply(graph, node, modified, deleted) : Status::OK();` -/
def RewriteRule.CheckConditionAndApply {G : Type} (r : RewriteRule G) (graph : G)
    (node : NodeIndex) (modified deleted : Bool) : Invocation G :=
  if r.SatisfyCondition graph node then
    ⟨r.Apply graph node modified deleted, 1⟩
  else
    ⟨some ⟨Status.OK, graph, modified, deleted⟩, 0⟩

/-! ## `conv_add_fusion.cc` -/

namespace ConvAddFusion

/-- `ConvAddFusion::SatisfyCondition`.  `kOnnxDomain` is the default domain argument of
`IsSupportedOptypeVersionAndDomain`, which the source leaves to the declaration of
that function.  The two inner `none` branches are not reached: after the test on the
number of outgoing edges the first consumer exists and is live. -/
def SatisfyCondition (kOnnxDomain : String) (graph : Graph α) (node : NodeIndex) : Bool :=
  match graph.GetNode node with
  | none => false
  | some conv_node =>
    if !IsSupportedOptypeVersionAndDomain conv_node "Conv" 1 kOnnxDomain ||
        graph.GetOutputEdgesCount node != 1 then
      false
    else
      match graph.OutputNodesBegin node with
      | none => false
      | some next =>
        match graph.GetNode next with
        | none => false
        | some next_node =>
          if !IsSupportedOptypeVersionAndDomain next_node "Add" 7 kOnnxDomain ||
              next_node.execution_provider_type != conv_node.execution_provider_type ||
              graph.GetInputEdgesCount next != 1 ||
              graph.IsNodeOutputsInGraphOutputs next_node then
            false
          else
            true

/-- How lines 16 to 93 of `ConvAddFusion::Apply` end: with one of the early
`return Status::OK()`, or with the rewritten graph and the node to splice out. -/
inductive Rewrite (α : Type) where
  | skipped
  | fused (graph : Graph α) (addd_node : NodeIndex)
deriving DecidableEq, Repr

/-- Lines 44 to 70 of `ConvAddFusion::Apply`: the Conv has three inputs, its bias and
`add_B` are summed and the sum replaces the bias.  `b0` is `add_B_tensor_proto->dims(0)`. -/
def fuseIntoBias [Add α] (graph : Graph α) (conv_inputs : List String) (add_index : NodeIndex)
    (add_B_tensor_proto : TensorProto α) (b0 : Int) : Option (Rewrite α) :=
  match conv_inputs[2]? with
  | none => none
  | some bias_name =>
    match graph.GetInitializedTensor bias_name with
    | none => some .skipped
    | some conv_B_tensor_proto =>
      if !Initializer.IsSupportedDataType (some conv_B_tensor_proto) ||
          conv_B_tensor_proto.data_type != add_B_tensor_proto.data_type ||
          conv_B_tensor_proto.dims.length != 1 then
        some .skipped
      else
        match conv_B_tensor_proto.dims[0]? with
        | none => none
        | some c0 =>
          if c0 != b0 then some .skipped
          else
            match Initializer.ofProto conv_B_tensor_proto, Initializer.ofProto add_B_tensor_proto with
            | some conv_B, some add_B =>
              if conv_B.size != add_B.size then some .skipped
              else
                let new_conv_B_tensor_proto := (conv_B.add add_B).ToProto
                some (.fused ((graph.RemoveInitializedTensor bias_name).AddInitializedTensor
                  new_conv_B_tensor_proto) add_index)
            | _, _ => none

/-- Lines 71 to 93 of `ConvAddFusion::Apply`: the Conv has no bias, `add_B` gets the
shape `[dim]` and becomes the third input of the Conv.  `dim` is
`conv_W_tensor_proto->dims(0)`. -/
def promoteToBias (graph : Graph α) (node : NodeIndex) (conv_node : Node) (add_index : NodeIndex)
    (add_B_tensor_proto : TensorProto α) (dim : Int) : Option (Rewrite α) :=
  match graph.GetNodeArg add_B_tensor_proto.name with
  | none => some .skipped
  | some add_B_node_arg =>
    let new_conv_B_tensor_proto : TensorProto α := { add_B_tensor_proto with dims := [dim] }
    let g1 := (graph.RemoveInitializedTensor add_B_tensor_proto.name).AddInitializedTensor
      new_conv_B_tensor_proto
    let g2 := g1.SetShape add_B_node_arg.name [dim]
    if 2 < conv_node.input_arg_count.length then
      some (.fused (g2.setNode node
        { conv_node with
          input_defs := conv_node.input_defs ++ [add_B_node_arg.name]
          input_arg_count := conv_node.input_arg_count.set 2 1 }) add_index)
    else
      none

/-- Lines 16 to 93 of `ConvAddFusion::Apply`: the lookups, the shape and type checks and
the rewrite of the initializers. -/
def ApplyFusion [Add α] (graph : Graph α) (node : NodeIndex) : Option (Rewrite α) :=
  match graph.GetNode node with
  | none => none
  | some conv_node =>
    match graph.OutputNodesBegin node with
    | none => none
    | some add_index =>
      match graph.GetNode add_index with
      | none => none
      | some add_node =>
        match conv_node.input_defs[1]?, add_node.input_defs[1]? with
        | some w_name, some b_name =>
          match graph.GetInitializedTensor b_name with
          | none => some .skipped
          | some add_B_tensor_proto =>
            if !Initializer.IsSupportedDataType (some add_B_tensor_proto) then some .skipped
            else
              match graph.GetInitializedTensor w_name with
              | none => none
              | some conv_W_tensor_proto =>
                if conv_W_tensor_proto.dims.length < 4 ||
                    (add_B_tensor_proto.dims.length : Int) != (conv_W_tensor_proto.dims.length : Int) - 1 then
                  some .skipped
                else
                  match conv_W_tensor_proto.dims[0]?, add_B_tensor_proto.dims[0]? with
                  | some w0, some b0 =>
                    if w0 != b0 then some .skipped
                    else if (add_B_tensor_proto.dims.drop 1).any (fun d => d != 1) then some .skipped
                    else if conv_node.input_defs.length = 3 then
                      fuseIntoBias graph conv_node.input_defs add_index add_B_tensor_proto b0
                    else
                      promoteToBias graph node conv_node add_index add_B_tensor_proto w0
                  | _, _ => none
        | _, _ => none

/-- `ConvAddFusion::Apply`: lines 16 to 93 followed by the removal of the Add node,
`if (graph_utils::RemoveSingleInputNode(graph, *addd_node)) modified = true;`, and
`return Status::OK();`. -/
def Apply [Add α] (graph : Graph α) (node : NodeIndex) (modified removed : Bool) :
    Option (RuleResult (Graph α)) :=
  match ApplyFusion graph node with
  | none => none
  | some .skipped => some ⟨Status.OK, graph, modified, removed⟩
  | some (.fused g1 addd_node) =>
    let r := RemoveSingleInputNode g1 addd_node
    some ⟨Status.OK, r.2, if r.1 then true else modified, removed⟩

/-- The graph that lines 16 to 93 of `ConvAddFusion::Apply` leave: the graph itself after
an early return, the rewritten graph otherwise. -/
def Rewrite.graphAfter (graph : Graph α) : Rewrite α → Graph α
  | .skipped => graph
  | .fused g1 _ => g1

/-- The rule object of `ConvAddFusion`.  The three arguments of the base-class
constructor are given in `conv_add_fusion.h`; they are parameters here. -/
def rule [Add α] (name desc : String) (target_op_types : List String) (kOnnxDomain : String) :
    RewriteRule (Graph α) :=
  ⟨name, desc, target_op_types, SatisfyCondition kOnnxDomain, Apply⟩

end ConvAddFusion

/-! ## `identity_elimination.h` and `slice_elimination.h` -/

/-- The rule object after a sequence of calls of `CheckConditionAndApply`, each given by
its graph, node and the two flags.  The object is threaded through the calls; the
method has no statement that writes to the object, whose three fields are `const`. -/
def RewriteRule.afterCalls {G : Type} (r : RewriteRule G) :
    List (G × NodeIndex × Bool × Bool) → RewriteRule G
  | [] => r
  | c :: cs =>
    let _invocation := r.CheckConditionAndApply c.1 c.2.1 c.2.2.1 c.2.2.2
    r.afterCalls cs

/-- The class `EliminateIdentity`: its constructor is
`RewriteRule("EliminateIdentity", "Eliminate identity node", {"Identity"})`.  The header
only declares `SatisfyCondition` and `Apply`; they are parameters. -/
def EliminateIdentity {G : Type} (SatisfyCondition : G → NodeIndex → Bool)
    (Apply : G → NodeIndex → Bool → Bool → Option (RuleResult G)) : RewriteRule G :=
  ⟨"EliminateIdentity", "Eliminate identity node", ["Identity"], SatisfyCondition, Apply⟩

/-- A rule class that answers `TargetOpTypes()` with a member function of its own: the
base-class part built by a constructor of `RewriteRule`, and the list its own
`TargetOpTypes()` returns. -/
structure OverridingRule (G : Type) where
  base : RewriteRule G
  TargetOpTypes : List String

/-- `Name()` of a rule class that does not redefine it. -/
def OverridingRule.Name {G : Type} (r : OverridingRule G) : String := r.base.Name

/-- `Description()` of a rule class that does not redefine it. -/
def OverridingRule.Description {G : Type} (r : OverridingRule G) : String := r.base.Description

/-- A rule object of such a class after a sequence of calls of `CheckConditionAndApply`:
the calls go through the base class, the member function of the class stays. -/
def OverridingRule.afterCalls {G : Type} (r : OverridingRule G)
    (calls : List (G × NodeIndex × Bool × Bool)) : OverridingRule G :=
  ⟨r.base.afterCalls calls, r.TargetOpTypes⟩

/-- The class `EliminateSlice`: its constructor is `RewriteRule("EliminateSlice")`, with
the name as only argument, and its member function `TargetOpTypes()` is
`return {"Slice"};`.  A one-argument constructor is not declared in `rewrite_rule.h`;
what it stores in `desc_` and `target_op_types_` are the parameters `desc` and
`target_op_types`.  The header only declares `SatisfyCondition` and `Apply`; they are
parameters. -/
def EliminateSlice {G : Type} (desc : String) (target_op_types : List String)
    (SatisfyCondition : G → NodeIndex → Bool)
    (Apply : G → NodeIndex → Bool → Bool → Option (RuleResult G)) : OverridingRule G :=
  ⟨⟨"EliminateSlice", desc, target_op_types, SatisfyCondition, Apply⟩, ["Slice"]⟩

/-! ## Rewrite driver -/

/-- Modelled from the spec: the applicability pre-filter of the rewrite driver, which is
not among the embedded sources.  A rule is consulted for a node when its target set is
empty or contains the operator type of the node. -/
def isTargeted (target_op_types : List String) (op_type : String) : Bool :=
  target_op_types.isEmpty || target_op_types.contains op_type

/-- One call of `CheckConditionAndApply` made by the driver: the position of the rule in
the registry, the node, the operator type the node had, and how often the body of
`Apply` was entered. -/
structure RuleCall where
  rule : Nat
  node : NodeIndex
  op_type : String
  applyCalls : Nat
deriving DecidableEq, Repr

/-- Modelled from the spec: what the rewrite driver holds while it works: the graph,
whether a rule reported a modification in the current pass, the indices reported as
deleted, and the record of the calls made so far. -/
structure DriverState (α : Type) where
  graph : Graph α
  modified : Bool
  deleted : List NodeIndex
  calls : List RuleCall

namespace Driver

/-- Modelled from the spec: the rules of the registry, in registration order, on one
node.  An index reported as deleted is not visited again and a dead slot is skipped; a
rule is invoked only when it passes the pre-filter; an error of an action aborts. -/
def applyRules : List (Nat × RewriteRule (Graph α)) → NodeIndex → DriverState α →
    Option (Status × DriverState α)
  | [], _, s => some (Status.OK, s)
  | (k, r) :: rest, node, s =>
    if node ∈ s.deleted then some (Status.OK, s)
    else
      match s.graph.GetNode node with
      | none => some (Status.OK, s)
      | some n =>
        if isTargeted r.TargetOpTypes n.op_type then
          let invocation := r.CheckConditionAndApply s.graph node false false
          match invocation.result with
          | none => none
          | some res =>
            let s' : DriverState α :=
              { graph := res.graph
                modified := s.modified || res.modified
                deleted := if res.deleted then node :: s.deleted else s.deleted
                calls := s.calls ++ [⟨k, node, n.op_type, invocation.applyCalls⟩] }
            match res.status with
            | Status.OK => applyRules rest node s'
            | Status.Error msg => some (Status.Error msg, s')
        else
          applyRules rest node s

/-- Modelled from the spec: one pass, a traversal of the snapshot of the live node
indices taken at the start of the pass. -/
def pass (rules : List (RewriteRule (Graph α))) : List NodeIndex → DriverState α →
    Option (Status × DriverState α)
  | [], s => some (Status.OK, s)
  | node :: nodes, s =>
    match applyRules rules.enum node s with
    | none => none
    | some (Status.OK, s') => pass rules nodes s'
    | some (Status.Error msg, s') => some (Status.Error msg, s')

/-- Modelled from the spec: passes are repeated until a pass reports no modification,
an action reports an error, or the configured maximum number of passes is used up. -/
def run (rules : List (RewriteRule (Graph α))) : Nat → DriverState α →
    Option (Status × DriverState α)
  | 0, s => some (Status.OK, s)
  | max_passes + 1, s =>
    match pass rules (s.graph.liveNodes.map fun p => p.1) { s with modified := false } with
    | none => none
    | some (Status.OK, s') => if s'.modified then run rules max_passes s' else some (Status.OK, s')
    | some (Status.Error msg, s') => some (Status.Error msg, s')

/-- The state in which the driver starts on a graph. -/
def start (graph : Graph α) : DriverState α :=
  ⟨graph, false, [], []⟩

/-- Every recorded call was made for a rule of the registry that passes the pre-filter
on the operator type the node had. -/
def CallsTargeted (rules : List (RewriteRule (Graph α))) (s : DriverState α) : Prop :=
  ∀ c ∈ s.calls, ∃ r, rules[c.rule]? = some r ∧ isTargeted r.TargetOpTypes c.op_type = true

end Driver

/-! ## Concrete graphs -/

namespace Example

/-- A node of the default domain on the provider `cpu`. -/
def mkNode (op_type : String) (version : Int) (inputs outputs : List String)
    (arg_count : List Int) : Node :=
  ⟨op_type, version, "", inputs, outputs, arg_count, "cpu"⟩

/-- The NodeArgs of the example graphs, all without a shape. -/
def nodeArgs : List NodeArg :=
  [⟨"X", none⟩, ⟨"W", none⟩, ⟨"Cb", none⟩, ⟨"Y", none⟩, ⟨"B", none⟩, ⟨"Z", none⟩, ⟨"Out", none⟩]

/-- A float weight with dims `[2,3,3,3]`. -/
def weight : TensorProto ℚ :=
  ⟨"W", 1, [2, 3, 3, 3], List.replicate 54 1⟩

/-- The float constant of the Add, dims `[2,1,1]`, values `[0.5, -0.5]`. -/
def addB : TensorProto ℚ :=
  ⟨"B", 1, [2, 1, 1], [1 / 2, -1 / 2]⟩

/-- A float bias with dims `[2]`, values `[1.0, 2.0]`. -/
def convBias : TensorProto ℚ :=
  ⟨"Cb", 1, [2], [1, 2]⟩

/-- The graph `X → Conv(conv_inputs) → Y → Add(add_inputs) → Z → Relu → Out`, node
indices 0, 1, 2. -/
def chain (conv_inputs : List String) (add_inputs : List String)
    (initializers : List (TensorProto ℚ)) (graph_outputs : List String) : Graph ℚ :=
  { nodes := [some (mkNode "Conv" 1 conv_inputs ["Y"] [1, 1, 0]),
              some (mkNode "Add" 7 add_inputs ["Z"] [1, 1]),
              some (mkNode "Relu" 6 ["Z"] ["Out"] [1])]
    node_args := nodeArgs
    initializers := initializers
    graph_inputs := ["X"]
    graph_outputs := graph_outputs }

/-- Conv without bias followed by the Add of the constant `B`. -/
def noBias : Graph ℚ :=
  chain ["X", "W"] ["Y", "B"] [weight, addB] ["Out"]

/-- Conv with the bias `Cb` followed by the Add of the constant `B`. -/
def withBias : Graph ℚ :=
  chain ["X", "W", "Cb"] ["Y", "B"] [weight, convBias, addB] ["Out"]

/-- As `noBias`, with the operands of the Add exchanged: the constant is in slot 0 and
the output of the Conv in slot 1. -/
def swappedAdd : Graph ℚ :=
  chain ["X", "W"] ["B", "Y"] [weight, addB] ["Out"]

/-- As `noBias`, but the weight `W` of the Conv is not an initializer: it is a second
graph input. -/
def weightIsInput : Graph ℚ :=
  { chain ["X", "W"] ["Y", "B"] [addB] ["Out"] with graph_inputs := ["X", "W"] }

/-- As `noBias`, with the output `Y` of the Conv declared as a graph output. -/
def convOutputIsGraphOutput : Graph ℚ :=
  chain ["X", "W"] ["Y", "B"] [weight, addB] ["Y", "Out"]

/-- As `noBias`, with the output `Z` of the Add declared as a graph output. -/
def addOutputIsGraphOutput : Graph ℚ :=
  chain ["X", "W"] ["Y", "B"] [weight, addB] ["Z"]

/-- As `noBias`, with a constant `B` of element type INT64 (7). -/
def intB : Graph ℚ :=
  chain ["X", "W"] ["Y", "B"] [weight, { addB with data_type := 7 }] ["Out"]

/-- What `ConvAddFusion::Apply` leaves of `noBias`: `B` has the dims `[2]` and is the
third input of the Conv, the Add is gone and the Relu reads `Y`. -/
def noBiasFused : Graph ℚ :=
  { nodes := [some (mkNode "Conv" 1 ["X", "W", "B"] ["Y"] [1, 1, 1]),
              none,
              some (mkNode "Relu" 6 ["Y"] ["Out"] [1])]
    node_args := [⟨"X", none⟩, ⟨"W", none⟩, ⟨"Cb", none⟩, ⟨"Y", none⟩, ⟨"B", some [2]⟩,
      ⟨"Z", none⟩, ⟨"Out", none⟩]
    initializers := [weight, { addB with dims := [2] }]
    graph_inputs := ["X"]
    graph_outputs := ["Out"] }

/-- A rule with the target set `{"Identity"}` whose predicate accepts every node and
whose action does nothing. -/
def identityOnly : RewriteRule (Graph ℚ) :=
  ⟨"IdentityOnly", "", ["Identity"], fun _ _ => true,
    fun g _ modified deleted => some ⟨Status.OK, g, modified, deleted⟩⟩

/-- A rule with an empty target set whose predicate accepts every node and whose action
does nothing. -/
def everyOpType : RewriteRule (Graph ℚ) :=
  ⟨"EveryOpType", "", [], fun _ _ => true,
    fun g _ modified deleted => some ⟨Status.OK, g, modified, deleted⟩⟩

end Example


/-! ## Lemmas on the graph IR -/

/-- A pair is listed among the live nodes exactly when the index resolves to the node. -/
theorem Graph.mem_liveNodes {g : Graph α} {i : NodeIndex} {n : Node} :
    (i, n) ∈ g.liveNodes ↔ g.GetNode i = some n := by
  unfold Graph.liveNodes Graph.GetNode
  simp only [List.mem_filterMap, Option.map_eq_some', Prod.mk.injEq, Prod.exists]
  constructor
  · rintro ⟨a, b, hab, n', hb, rfl, rfl⟩
    rw [List.mk_mem_enum_iff_getElem?] at hab
    subst hb
    simp [hab]
  · intro h
    split at h
    · rename_i n' hn'
      simp only [Option.some.injEq] at h
      subst h
      exact ⟨i, some n', List.mk_mem_enum_iff_getElem?.2 hn', n', rfl, rfl, rfl⟩
    · simp at h

/-- The edges between two nodes are the pairs of slots that carry the same NodeArg. -/
theorem mem_edgesBetween {p c : NodeIndex} {pn cn : Node} {e : Edge} :
    e ∈ edgesBetween p pn c cn ↔
      e.src = p ∧ e.dst = c ∧
      ∃ name, pn.output_defs[e.src_arg]? = some name ∧ cn.input_defs[e.dst_arg]? = some name := by
  unfold edgesBetween
  simp only [List.mem_flatMap, List.mem_filterMap, Prod.exists, List.mk_mem_enum_iff_getElem?]
  constructor
  · rintro ⟨i, o, ho, j, x, hx, h⟩
    split at h
    · rename_i hox
      simp only [Option.some.injEq] at h
      subst h
      have hox2 : o = x := hox
      subst hox2
      exact ⟨rfl, rfl, o, ho, hx⟩
    · simp at h
  · rintro ⟨rfl, rfl, name, ho, hi⟩
    exact ⟨e.src_arg, name, ho, e.dst_arg, name, hi, by simp⟩

/-- An edge of the graph joins an output slot of a live node to an input slot of a live
node with the same NodeArg. -/
theorem Graph.mem_edges {g : Graph α} {e : Edge} :
    e ∈ g.edges ↔
      ∃ pn cn name, g.GetNode e.src = some pn ∧ g.GetNode e.dst = some cn ∧
        pn.output_defs[e.src_arg]? = some name ∧ cn.input_defs[e.dst_arg]? = some name := by
  unfold Graph.edges
  simp only [List.mem_flatMap, Prod.exists, mem_edgesBetween, Graph.mem_liveNodes]
  constructor
  · rintro ⟨p, pn, hp, c, cn, hc, rfl, rfl, name, h1, h2⟩
    exact ⟨pn, cn, name, hp, hc, h1, h2⟩
  · rintro ⟨pn, cn, name, hp, hc, h1, h2⟩
    exact ⟨e.src, pn, hp, e.dst, cn, hc, rfl, rfl, name, h1, h2⟩

/-- The first consumer of a node is at the end of one of its outgoing edges. -/
theorem Graph.OutputNodesBegin_edge {g : Graph α} {i c : NodeIndex}
    (h : g.OutputNodesBegin i = some c) : ∃ e ∈ g.edges, e.src = i ∧ e.dst = c := by
  unfold Graph.OutputNodesBegin Graph.OutputEdges at h
  simp only [Option.map_eq_some'] at h
  obtain ⟨e, he, rfl⟩ := h
  have hm := List.mem_of_mem_head? he
  simp only [List.mem_filter, beq_iff_eq] at hm
  exact ⟨e, hm.1, hm.2, rfl⟩

/-- A node with one incoming edge has no other incoming edge. -/
theorem Graph.InputEdges_eq_singleton {g : Graph α} {c : NodeIndex} {e : Edge}
    (hcount : g.GetInputEdgesCount c = 1) (he : e ∈ g.edges) (hdst : e.dst = c) :
    g.InputEdges c = [e] := by
  unfold Graph.GetInputEdgesCount at hcount
  have hm : e ∈ g.InputEdges c := by
    unfold Graph.InputEdges
    simp [List.mem_filter, he, hdst]
  match hl : g.InputEdges c, hcount, hm with
  | [e'], _, hm' =>
    simp at hm'
    simp [hm']

/-- The predicate of `ConvAddFusion` unfolded into the conjunction of its tests. -/
theorem ConvAddFusion.SatisfyCondition_iff (kOnnxDomain : String) (graph : Graph α)
    (node : NodeIndex) :
    ConvAddFusion.SatisfyCondition kOnnxDomain graph node = true ↔
      ∃ conv_node next next_node,
        graph.GetNode node = some conv_node ∧
        IsSupportedOptypeVersionAndDomain conv_node "Conv" 1 kOnnxDomain = true ∧
        graph.GetOutputEdgesCount node = 1 ∧
        graph.OutputNodesBegin node = some next ∧
        graph.GetNode next = some next_node ∧
        IsSupportedOptypeVersionAndDomain next_node "Add" 7 kOnnxDomain = true ∧
        next_node.execution_provider_type = conv_node.execution_provider_type ∧
        graph.GetInputEdgesCount next = 1 ∧
        graph.IsNodeOutputsInGraphOutputs next_node = false := by
  unfold ConvAddFusion.SatisfyCondition
  constructor
  · intro h
    split at h
    · simp at h
    · rename_i conv_node hc
      split at h
      · simp at h
      · rename_i hcond
        split at h
        · simp at h
        · rename_i next hn
          split at h
          · simp at h
          · rename_i next_node hnn
            split at h
            · simp at h
            · rename_i hcond2
              simp only [Bool.or_eq_true, not_or, Bool.not_eq_true, Bool.not_eq_false', bne_iff_ne, ne_eq, Decidable.not_not, Bool.not_eq_true'] at hcond hcond2
              refine ⟨conv_node, next, next_node, hc, ?_, ?_, hn, hnn, ?_, ?_, ?_, ?_⟩ <;> simp_all
  · rintro ⟨conv_node, next, next_node, hc, h1, h2, hn, hnn, h3, h4, h5, h6⟩
    simp [hc, h1, h2, hn, hnn, h3, h4, h5, h6]


/-- Filtering by a weaker test does not change what `find?` returns. -/
theorem find?_filter_of_imp {β : Type} (p q : β → Bool) (l : List β)
    (h : ∀ x, p x = true → q x = true) :
    (l.filter q).find? p = l.find? p := by
  induction l with
  | nil => rfl
  | cons a l ih =>
    cases hq : q a
    · have hp : p a = false := by
        cases hp : p a
        · rfl
        · rw [h a hp] at hq; cases hq
      rw [List.filter_cons_of_neg (by simp [hq]), List.find?_cons, hp, ih]
    · rw [List.filter_cons_of_pos hq, List.find?_cons, List.find?_cons, ih]

/-- Nothing is found among the elements that passed an excluding filter. -/
theorem find?_filter_none {β : Type} (p q : β → Bool) (l : List β)
    (h : ∀ x, p x = true → q x = false) :
    (l.filter q).find? p = none := by
  rw [List.find?_eq_none]
  intro x hx
  rw [List.mem_filter] at hx
  intro hp
  rw [h x hp] at hx
  exact absurd hx.2 (by simp)

/-- A tensor found under a name carries that name. -/
theorem Graph.GetInitializedTensor_name {g : Graph α} {n : String} {t : TensorProto α}
    (h : g.GetInitializedTensor n = some t) : t.name = n := by
  have := List.find?_some h
  simpa using this

/-- A NodeArg found under a name carries that name. -/
theorem Graph.GetNodeArg_name {g : Graph α} {n : String} {a : NodeArg}
    (h : g.GetNodeArg n = some a) : a.name = n := by
  have := List.find?_some h
  simpa using this

/-- After remove and add, the registry holds the new tensor under its name. -/
theorem Graph.GetInitializedTensor_replaced (g : Graph α) (t : TensorProto α) :
    ((g.RemoveInitializedTensor t.name).AddInitializedTensor t).GetInitializedTensor t.name
      = some t := by
  simp only [Graph.GetInitializedTensor, Graph.AddInitializedTensor, Graph.RemoveInitializedTensor,
    List.find?_append]
  rw [find?_filter_none]
  · simp
  · intro x hx
    simp only [beq_iff_eq] at hx
    simp [hx]

/-- Remove and add of one name leave the lookup of every other name as it was. -/
theorem Graph.GetInitializedTensor_other (g : Graph α) (t : TensorProto α) {m : String}
    (hm : m ≠ t.name) :
    ((g.RemoveInitializedTensor t.name).AddInitializedTensor t).GetInitializedTensor m
      = g.GetInitializedTensor m := by
  simp only [Graph.GetInitializedTensor, Graph.AddInitializedTensor, Graph.RemoveInitializedTensor,
    List.find?_append]
  have hlast : List.find? (fun u => u.name == m) [t] = none := by
    rw [List.find?_eq_none]
    intro x hx
    simp only [List.mem_singleton] at hx
    subst hx
    simpa using Ne.symm hm
  have himp : ∀ x : TensorProto α, (x.name == m) = true → (!(x.name == t.name)) = true := by
    intro x hx
    simp only [beq_iff_eq] at hx
    simp only [Bool.not_eq_eq_eq_not, Bool.not_true, beq_eq_false_iff_ne, ne_eq]
    rw [hx]; exact hm
  rw [hlast, Option.or_none, find?_filter_of_imp _ _ _ himp, find?_filter_of_imp _ _ _ himp]

/-- After `SetShape` the NodeArg is found with the new shape. -/
theorem Graph.GetNodeArg_SetShape {g : Graph α} {n : String} {a : NodeArg} (shape : List Int)
    (h : g.GetNodeArg n = some a) :
    (g.SetShape n shape).GetNodeArg n = some { a with shape := some shape } := by
  simp only [Graph.GetNodeArg, Graph.SetShape] at *
  generalize g.node_args = l at h ⊢
  induction l with
  | nil => simp at h
  | cons b l ih =>
    rw [List.map_cons, List.find?_cons]
    rw [List.find?_cons] at h
    cases hb : b.name == n
    · rw [hb] at h
      simp only [hb, Bool.false_eq_true, ↓reduceIte]
      exact ih h
    · rw [hb] at h
      cases h
      simp [hb]

/-- A write through a live node reference is read back. -/
theorem Graph.GetNode_setNode_self {g : Graph α} {i : NodeIndex} {n0 : Node} (n : Node)
    (h : g.GetNode i = some n0) : (g.setNode i n).GetNode i = some n := by
  have hi : i < g.nodes.length := by
    by_contra hlt
    have : g.nodes[i]? = none := List.getElem?_eq_none (Nat.le_of_not_lt hlt)
    simp [Graph.GetNode, this] at h
  simp [Graph.GetNode, Graph.setNode, List.getElem?_set, hi]

/-- A write through a node reference leaves the other nodes alone. -/
theorem Graph.GetNode_setNode_ne (g : Graph α) {i j : NodeIndex} (n : Node) (h : i ≠ j) :
    (g.setNode i n).GetNode j = g.GetNode j := by
  simp [Graph.GetNode, Graph.setNode, List.getElem?_set, h]

/-- The two ways `RemoveSingleInputNode` ends. -/
theorem RemoveSingleInputNode_cases (g : Graph α) (i : NodeIndex) :
    RemoveSingleInputNode g i = (false, g) ∨
    ∃ an e x, g.GetNode i = some an ∧ g.InputEdges i = [e] ∧
      an.input_defs[e.dst_arg]? = some x ∧
      RemoveSingleInputNode g i = (true, { g with
        nodes := (g.nodes.map (Option.map (rewireInputs an.output_defs x))).set i none }) := by
  unfold RemoveSingleInputNode
  split
  · rename_i an e hn he
    split
    · rename_i x hx
      exact Or.inr ⟨an, e, x, hn, he, hx, rfl⟩
    · exact Or.inl rfl
  · exact Or.inl rfl

/-- The splice-out does not touch the initializer registry. -/
theorem RemoveSingleInputNode_initializers (g : Graph α) (i : NodeIndex) :
    (RemoveSingleInputNode g i).2.initializers = g.initializers := by
  rcases RemoveSingleInputNode_cases g i with h | ⟨an, e, x, -, -, -, h⟩ <;> rw [h]

/-- The splice-out does not touch the NodeArg registry. -/
theorem RemoveSingleInputNode_node_args (g : Graph α) (i : NodeIndex) :
    (RemoveSingleInputNode g i).2.node_args = g.node_args := by
  rcases RemoveSingleInputNode_cases g i with h | ⟨an, e, x, -, -, -, h⟩ <;> rw [h]

/-- Node lookup in a graph after the splice-out of node `i`. -/
theorem GetNode_spliced (g : Graph α) (i j : NodeIndex) (f : Node → Node) :
    ({ g with nodes := (g.nodes.map (Option.map f)).set i none } : Graph α).GetNode j =
      if i = j then none else (g.GetNode j).map f := by
  simp only [Graph.GetNode, List.getElem?_set, List.getElem?_map, List.length_map]
  by_cases hij : i = j
  · simp only [hij, ↓reduceIte]
    split
    · rename_i heq
      split at heq <;> simp at heq
    · rfl
  · simp only [hij, ↓reduceIte]
    cases hj : g.nodes[j]? with
    | none => rfl
    | some o => cases o <;> rfl

/-- Rewiring does nothing to a node that reads none of the outputs. -/
theorem rewireInputs_eq_self {outs : List String} {x : String} {n : Node}
    (h : ∀ y ∈ outs, y ∉ n.input_defs) : rewireInputs outs x n = n := by
  unfold rewireInputs
  have : n.input_defs.map (fun d => if d ∈ outs then x else d) = n.input_defs := by
    conv_rhs => rw [← List.map_id n.input_defs]
    apply List.map_congr_left
    intro d hd
    have : d ∉ outs := fun hmem => h d hmem hd
    simp [this]
  rw [this]

/-- When the outputs of the node to remove are not read by node `j`, the splice-out
leaves node `j` as it is. -/
theorem RemoveSingleInputNode_GetNode_of_not_consumer {g : Graph α} {i j : NodeIndex}
    {an n : Node} (hi : g.GetNode i = some an) (hj : g.GetNode j = some n) (hij : i ≠ j)
    (h : ∀ y ∈ an.output_defs, y ∉ n.input_defs) :
    (RemoveSingleInputNode g i).2.GetNode j = some n := by
  rcases RemoveSingleInputNode_cases g i with h' | ⟨an', e, x, hn', -, -, h'⟩
  · rw [h']; exact hj
  · rw [h', GetNode_spliced]
    rw [hi] at hn'
    cases hn'
    simp [hij, hj, rewireInputs_eq_self h]

/-- `Apply` after an early return of lines 16 to 93. -/
theorem ConvAddFusion.Apply_of_skipped [Add α] {graph : Graph α} {node : NodeIndex}
    (h : ConvAddFusion.ApplyFusion graph node = some .skipped) (modified removed : Bool) :
    ConvAddFusion.Apply graph node modified removed =
      some ⟨Status.OK, graph, modified, removed⟩ := by
  simp [ConvAddFusion.Apply, h]

/-- `Apply` after the rewrite of lines 16 to 93: the removal of the Add node follows. -/
theorem ConvAddFusion.Apply_of_fused [Add α] {graph g1 : Graph α} {node a : NodeIndex}
    (h : ConvAddFusion.ApplyFusion graph node = some (.fused g1 a)) (modified removed : Bool) :
    ConvAddFusion.Apply graph node modified removed =
      some ⟨Status.OK, (RemoveSingleInputNode g1 a).2,
        if (RemoveSingleInputNode g1 a).1 then true else modified, removed⟩ := by
  simp [ConvAddFusion.Apply, h]

/-- The live entries of an enumerated arena are as many as its non-empty slots. -/
theorem length_filterMap_enumFrom {β : Type} (l : List (Option β)) (k : Nat) :
    ((l.enumFrom k).filterMap fun p => p.2.map fun n => (p.1, n)).length
      = l.countP Option.isSome := by
  induction l generalizing k with
  | nil => rfl
  | cons a l ih =>
    cases a with
    | none => simpa [List.enumFrom_cons, List.filterMap_cons] using ih (k + 1)
    | some b => simpa [List.enumFrom_cons, List.filterMap_cons] using ih (k + 1)

/-- The number of live nodes is the number of non-empty slots of the arena. -/
theorem Graph.NumberOfNodes_eq_countP (g : Graph α) :
    g.NumberOfNodes = g.nodes.countP Option.isSome := by
  unfold Graph.NumberOfNodes Graph.liveNodes List.enum
  exact length_filterMap_enumFrom g.nodes 0

/-- Editing the live entries does not change their number. -/
theorem countP_isSome_map {β : Type} (f : β → β) (l : List (Option β)) :
    (l.map (Option.map f)).countP Option.isSome = l.countP Option.isSome := by
  induction l with
  | nil => rfl
  | cons a l ih => cases a <;> simp [List.countP_cons, ih]

/-- A tombstone in place of a live entry lowers the count by one. -/
theorem countP_isSome_set_none {β : Type} (l : List (Option β)) (i : Nat) (b : β)
    (h : l[i]? = some (some b)) :
    (l.set i none).countP Option.isSome + 1 = l.countP Option.isSome := by
  induction l generalizing i with
  | nil => simp at h
  | cons a l ih =>
    cases i with
    | zero =>
      simp only [List.getElem?_cons_zero, Option.some.injEq] at h
      subst h
      simp [List.countP_cons]
    | succ i =>
      simp only [List.getElem?_cons_succ] at h
      simp only [List.set_cons_succ, List.countP_cons]
      have := ih i h
      omega

/-- Overwriting a live entry keeps the count. -/
theorem countP_isSome_set_some {β : Type} (l : List (Option β)) (i : Nat) (b b' : β)
    (h : l[i]? = some (some b)) :
    (l.set i (some b')).countP Option.isSome = l.countP Option.isSome := by
  induction l generalizing i with
  | nil => simp at h
  | cons a l ih =>
    cases i with
    | zero =>
      simp only [List.getElem?_cons_zero, Option.some.injEq] at h
      subst h
      simp [List.countP_cons]
    | succ i =>
      simp only [List.getElem?_cons_succ] at h
      simp only [List.set_cons_succ, List.countP_cons]
      rw [ih i h]

/-- A resolved node sits in its slot of the arena. -/
theorem Graph.getElem?_of_GetNode {g : Graph α} {i : NodeIndex} {n : Node}
    (h : g.GetNode i = some n) : g.nodes[i]? = some (some n) := by
  unfold Graph.GetNode at h
  split at h
  · rename_i n' hn'
    cases h
    exact hn'
  · cases h

/-- What lines 16 to 93 of `Apply` leave of the node arena when they rewrite the graph:
the arena itself, or the arena with an input appended to the Conv node. -/
theorem ConvAddFusion.ApplyFusion_fused_nodes [Add α] {graph g1 : Graph α} {node a : NodeIndex}
    (h : ConvAddFusion.ApplyFusion graph node = some (.fused g1 a)) :
    ∃ conv_node add_node,
      graph.GetNode node = some conv_node ∧
      graph.OutputNodesBegin node = some a ∧
      graph.GetNode a = some add_node ∧
      (g1.nodes = graph.nodes ∨
        ∃ conv_node' b, g1.nodes = graph.nodes.set node (some conv_node') ∧
          conv_node'.output_defs = conv_node.output_defs ∧
          conv_node'.input_defs = conv_node.input_defs ++ [b]) := by
  unfold ConvAddFusion.ApplyFusion at h
  split at h
  · cases h
  rename_i conv_node hconv
  split at h
  · cases h
  rename_i add_index hadd
  split at h
  · cases h
  rename_i add_node haddn
  split at h
  swap
  · cases h
  split at h
  · cases h
  split at h
  · cases h
  split at h
  · cases h
  split at h
  · cases h
  split at h
  swap
  · cases h
  split at h
  · cases h
  split at h
  · cases h
  split at h
  · -- three inputs
    unfold ConvAddFusion.fuseIntoBias at h
    split at h
    · cases h
    split at h
    · cases h
    split at h
    · cases h
    split at h
    · cases h
    split at h
    · cases h
    split at h
    swap
    · cases h
    split at h
    · cases h
    simp only [Option.some.injEq, ConvAddFusion.Rewrite.fused.injEq] at h
    obtain ⟨hg, ha⟩ := h
    subst ha
    subst hg
    exact ⟨conv_node, add_node, hconv, hadd, haddn, Or.inl rfl⟩
  · unfold ConvAddFusion.promoteToBias at h
    split at h
    · cases h
    rename_i arg harg
    simp only at h
    split at h
    swap
    · cases h
    simp only [Option.some.injEq, ConvAddFusion.Rewrite.fused.injEq] at h
    obtain ⟨hg, ha⟩ := h
    subst ha
    subst hg
    exact ⟨conv_node, add_node, hconv, hadd, haddn, Or.inr ⟨_, arg.name, rfl, rfl, rfl⟩⟩

/-- The first consumer of a node is another node when it does not read its own outputs. -/
theorem Graph.OutputNodesBegin_ne {g : Graph α} {node add : NodeIndex} {conv_node add_node : Node}
    (hconv : g.GetNode node = some conv_node)
    (hadd : g.OutputNodesBegin node = some add)
    (haddn : g.GetNode add = some add_node)
    (hdag : ∀ y ∈ add_node.output_defs, y ∉ add_node.input_defs) :
    add ≠ node := by
  intro heq
  subst heq
  rw [hconv] at haddn
  cases haddn
  obtain ⟨e, he, hsrc, hdst⟩ := Graph.OutputNodesBegin_edge hadd
  obtain ⟨pn, cn, name, hp, hcn, h1, h2⟩ := Graph.mem_edges.1 he
  rw [hsrc, hconv] at hp
  rw [hdst, hconv] at hcn
  cases hp
  cases hcn
  exact hdag name (List.getElem?_mem h1) (List.getElem?_mem h2)


/-! ## `RewriteRule::CheckConditionAndApply` -/

/-- C1 (as stated, refuted): the rule `ConvAddFusion` is evaluated on the Relu node of
`Example.noBias`, where its predicate is false, with `modified` and `deleted` both true
on entry.  The call returns success on the unchanged graph, and both flags are still
true: they are not reported as false. -/
theorem C1_flags_true_on_entry_counterexample :
    (ConvAddFusion.rule "ConvAddFusion" "" [] "").SatisfyCondition Example.noBias 2 = false ∧
    ((ConvAddFusion.rule "ConvAddFusion" "" [] "").CheckConditionAndApply
        Example.noBias 2 true true).result
      = some ⟨Status.OK, Example.noBias, true, true⟩ :=
  ⟨by decide, rfl⟩

/-- C1 (amended): when `SatisfyCondition(graph, node)` is false, `CheckConditionAndApply`
returns success without entering `Apply`, leaves the graph unchanged and leaves the
flags `modified` and `deleted` at the values they held on entry. -/
theorem C1_condition_false_is_noop {G : Type} (r : RewriteRule G) (graph : G)
    (node : NodeIndex) (modified deleted : Bool)
    (h : r.SatisfyCondition graph node = false) :
    r.CheckConditionAndApply graph node modified deleted =
      ⟨some ⟨Status.OK, graph, modified, deleted⟩, 0⟩ := by
  simp [RewriteRule.CheckConditionAndApply, h]

/-- C1 (amended), at the Relu node of `Example.noBias` with both flags false on entry. -/
theorem C1_condition_false_is_noop_witness :
    (ConvAddFusion.rule "ConvAddFusion" "" [] "").SatisfyCondition Example.noBias 2 = false ∧
    (ConvAddFusion.rule "ConvAddFusion" "" [] "").CheckConditionAndApply Example.noBias 2 false false =
      ⟨some ⟨Status.OK, Example.noBias, false, false⟩, 0⟩ :=
  ⟨by decide, C1_condition_false_is_noop _ _ _ _ _ (by decide)⟩

/-- C2: when `SatisfyCondition(graph, node)` is true, `CheckConditionAndApply` enters
`Apply` once, on the same graph, node and flags, and hands back what `Apply` produced:
its status, its graph, its `modified` and `deleted`, or its failure to return. -/
theorem C2_condition_true_returns_Apply {G : Type} (r : RewriteRule G) (graph : G)
    (node : NodeIndex) (modified deleted : Bool)
    (h : r.SatisfyCondition graph node = true) :
    r.CheckConditionAndApply graph node modified deleted =
      ⟨r.Apply graph node modified deleted, 1⟩ := by
  simp [RewriteRule.CheckConditionAndApply, h]

/-- C2, at the Conv node of `Example.noBias`. -/
theorem C2_condition_true_returns_Apply_witness :
    (ConvAddFusion.rule "ConvAddFusion" "" [] "").SatisfyCondition Example.noBias 0 = true ∧
    (ConvAddFusion.rule "ConvAddFusion" "" [] "").CheckConditionAndApply Example.noBias 0 false false =
      ⟨(ConvAddFusion.rule "ConvAddFusion" "" [] "").Apply Example.noBias 0 false false, 1⟩ :=
  ⟨by decide, C2_condition_true_returns_Apply _ _ _ _ _ (by decide)⟩

/-! ## `ConvAddFusion::SatisfyCondition` -/

/-- C3: `ConvAddFusion::SatisfyCondition(graph, node)` is true exactly when the node is a
Conv of version 1 in the supported domain, it has exactly one output edge, the node at
the end of that edge is an Add of version 7 (tested by the same
`IsSupportedOptypeVersionAndDomain`), that Add has the execution-provider tag of the
node, that Add has exactly one input edge, and no output of the Add is a declared graph
output.  The predicate reads the graph and the node through const references: it is a
function to `Bool` and has no graph to hand back. -/
theorem C3_SatisfyCondition_characterisation (kOnnxDomain : String) (graph : Graph α)
    (node : NodeIndex) :
    ConvAddFusion.SatisfyCondition kOnnxDomain graph node = true ↔
      ∃ conv_node next next_node,
        graph.GetNode node = some conv_node ∧
        IsSupportedOptypeVersionAndDomain conv_node "Conv" 1 kOnnxDomain = true ∧
        graph.GetOutputEdgesCount node = 1 ∧
        graph.OutputNodesBegin node = some next ∧
        graph.GetNode next = some next_node ∧
        IsSupportedOptypeVersionAndDomain next_node "Add" 7 kOnnxDomain = true ∧
        next_node.execution_provider_type = conv_node.execution_provider_type ∧
        graph.GetInputEdgesCount next = 1 ∧
        graph.IsNodeOutputsInGraphOutputs next_node = false :=
  ConvAddFusion.SatisfyCondition_iff kOnnxDomain graph node

/-- C4 (as stated, refuted): on `Example.swappedAdd` the predicate is true at the Conv
node, whose only output is `Y`; the Add at the end of its edge has the constant `B` in
input slot 0 and `Y`, the output of the Conv, in input slot 1. -/
theorem C4_conv_output_in_slot_one_counterexample :
    ConvAddFusion.SatisfyCondition "" Example.swappedAdd 0 = true ∧
    (Example.swappedAdd.GetNode 0).map (fun n => n.output_defs) = some ["Y"] ∧
    Example.swappedAdd.OutputNodesBegin 0 = some 1 ∧
    (Example.swappedAdd.GetNode 1).map (fun n => n.input_defs) = some ["B", "Y"] := by
  decide

/-- C4 (amended): when `SatisfyCondition` is true, the single input edge of the matched
Add comes from the Conv node and carries an output of the Conv into some input slot of
the Add, which need not be slot 0; and whenever `Apply` goes on to rewrite the graph,
the constant it read as B is the initializer named by input slot 1 of the Add. -/
theorem C4_add_reads_conv_output_in_some_slot [Add α] (kOnnxDomain : String)
    (graph : Graph α) (node : NodeIndex)
    (h : ConvAddFusion.SatisfyCondition kOnnxDomain graph node = true) :
    ∃ conv_node add add_node e name,
      graph.GetNode node = some conv_node ∧
      graph.OutputNodesBegin node = some add ∧
      graph.GetNode add = some add_node ∧
      graph.InputEdges add = [e] ∧ e.src = node ∧
      conv_node.output_defs[e.src_arg]? = some name ∧
      add_node.input_defs[e.dst_arg]? = some name ∧
      ∀ g1 a, ConvAddFusion.ApplyFusion graph node = some (.fused g1 a) →
        ∃ b_name add_B, add_node.input_defs[1]? = some b_name ∧
          graph.GetInitializedTensor b_name = some add_B := by
  obtain ⟨conv_node, add, add_node, hc, -, -, hn, hnn, -, -, hcount, -⟩ :=
    (ConvAddFusion.SatisfyCondition_iff kOnnxDomain graph node).1 h
  obtain ⟨e, he, hsrc, hdst⟩ := Graph.OutputNodesBegin_edge hn
  obtain ⟨pn, cn, name, hp, hcn, h1, h2⟩ := Graph.mem_edges.1 he
  rw [hsrc, hc] at hp
  rw [hdst, hnn] at hcn
  cases hp
  cases hcn
  refine ⟨conv_node, add, add_node, e, name, hc, hn, hnn,
    Graph.InputEdges_eq_singleton hcount he hdst, hsrc, h1, h2, ?_⟩
  intro g1 a hf
  simp only [ConvAddFusion.ApplyFusion, hc, hn, hnn] at hf
  split at hf
  · rename_i w_name b_name hw hb
    split at hf
    · simp at hf
    · rename_i add_B hB
      exact ⟨b_name, add_B, hb, hB⟩
  · simp at hf


/-- C4 (amended), at the Conv node of `Example.swappedAdd`, where the slot is 1. -/
theorem C4_add_reads_conv_output_in_some_slot_witness :
    ConvAddFusion.SatisfyCondition "" Example.swappedAdd 0 = true ∧
    ∃ conv_node add add_node e name,
      Example.swappedAdd.GetNode 0 = some conv_node ∧
      Example.swappedAdd.OutputNodesBegin 0 = some add ∧
      Example.swappedAdd.GetNode add = some add_node ∧
      Example.swappedAdd.InputEdges add = [e] ∧ e.src = 0 ∧
      conv_node.output_defs[e.src_arg]? = some name ∧
      add_node.input_defs[e.dst_arg]? = some name ∧
      ∀ g1 a, ConvAddFusion.ApplyFusion Example.swappedAdd 0 = some (.fused g1 a) →
        ∃ b_name add_B, add_node.input_defs[1]? = some b_name ∧
          Example.swappedAdd.GetInitializedTensor b_name = some add_B :=
  ⟨by decide, C4_add_reads_conv_output_in_some_slot "" Example.swappedAdd 0 (by decide)⟩

/-- C5 (the code at the failing input): on `Example.weightIsInput` the predicate is true
at the Conv node, the name `W` in input slot 1 of the Conv is not registered as an
initializer, the constant `B` is a registered float initializer, and `Apply` reads
`conv_W_tensor_proto->dims_size()` through the null pointer: it has no result. -/
theorem C5_Apply_reads_missing_weight :
    ConvAddFusion.SatisfyCondition "" Example.weightIsInput 0 = true ∧
    Example.weightIsInput.GetInitializedTensor "W" = none ∧
    Initializer.IsSupportedDataType (Example.weightIsInput.GetInitializedTensor "B") = true ∧
    ConvAddFusion.Apply Example.weightIsInput 0 false false = none := by
  decide

/-- The guard of line 125: if an output of the first consumer of the candidate node, the
node the rule removes, is a declared graph output, `SatisfyCondition` returns false. -/
theorem ConvAddFusion.SatisfyCondition_false_of_consumer_output_boundary (kOnnxDomain : String)
    (graph : Graph α) (node next : NodeIndex) (next_node : Node)
    (hnext : graph.OutputNodesBegin node = some next)
    (hnode : graph.GetNode next = some next_node)
    (hout : graph.IsNodeOutputsInGraphOutputs next_node = true) :
    ConvAddFusion.SatisfyCondition kOnnxDomain graph node = false := by
  rw [← Bool.not_eq_true]
  intro h
  obtain ⟨_, next', next_node', -, -, -, hn, hnn, -, -, -, ho⟩ :=
    (ConvAddFusion.SatisfyCondition_iff kOnnxDomain graph node).1 h
  rw [hnext] at hn
  cases hn
  rw [hnode] at hnn
  cases hnn
  rw [hout] at ho
  cases ho

/-- C6 (the code at the failing input): on `Example.convOutputIsGraphOutput` the output `Y`
of the Conv node is a declared graph output and `SatisfyCondition` is true at the Conv
node, whereas on `Example.addOutputIsGraphOutput`, where the output of the Add is the
declared one, it is false.  `Apply` then folds `B` into the Conv: it returns success with
`modified` set, the Conv has the inputs `[X, W, B]` and still writes `Y`, the Add is
gone, and `Y` is still a declared graph output, which now carries `Conv(X, W) + B`
instead of `Conv(X, W)`. -/
theorem C6_predicate_accepts_conv_with_graph_output :
    ConvAddFusion.SatisfyCondition "" Example.convOutputIsGraphOutput 0 = true ∧
    (Example.convOutputIsGraphOutput.GetNode 0).map
      (fun n => (n.output_defs, Example.convOutputIsGraphOutput.IsNodeOutputsInGraphOutputs n))
      = some (["Y"], true) ∧
    ConvAddFusion.SatisfyCondition "" Example.addOutputIsGraphOutput 0 = false ∧
    (ConvAddFusion.Apply Example.convOutputIsGraphOutput 0 false false).map
      (fun r => (r.status, r.modified,
        (r.graph.GetNode 0).map (fun n => (n.input_defs, n.output_defs)),
        r.graph.GetNode 1, r.graph.graph_outputs))
      = some (Status.OK, true, some (["X", "W", "B"], ["Y"]), none, ["Y", "Out"]) :=
  ⟨by decide, by decide, by decide, by rfl⟩

/-! ## `ConvAddFusion::Apply` -/

/-- C7: fusion without an existing bias.  The Conv has exactly the two inputs `x_name` and
`w_name`, its weight initializer has dims `[C, k1, k2, k3]`, the second input of the Add
that consumes it is a float or double initializer B with dims `[C, 1, 1]` that has a
NodeArg.  The graph is well formed: the node is live, its arity list has a slot 2, and no
output of the Add is an input of the Conv or of the Add.  Then `Apply` returns success,
and afterwards the registry holds under the name of B the tensor B with dims `[C]` (same
element type, same payload), the NodeArg of B has shape `[C]`, the input list of the Conv
is its two inputs followed by the NodeArg of B, and its arity count at slot 2 is 1. -/
theorem C7_bias_promoted_from_add_constant [Add α] (graph : Graph α) (node add : NodeIndex)
    (conv_node add_node : Node)
    (x_name w_name b_name : String) (conv_W add_B : TensorProto α) (add_B_node_arg : NodeArg)
    (C k1 k2 k3 : Int) (modified removed : Bool)
    (hconv : graph.GetNode node = some conv_node)
    (hadd : graph.OutputNodesBegin node = some add)
    (haddn : graph.GetNode add = some add_node)
    (hin : conv_node.input_defs = [x_name, w_name])
    (harity : 2 < conv_node.input_arg_count.length)
    (hb : add_node.input_defs[1]? = some b_name)
    (hW : graph.GetInitializedTensor w_name = some conv_W)
    (hWd : conv_W.dims = [C, k1, k2, k3])
    (hB : graph.GetInitializedTensor b_name = some add_B)
    (hBd : add_B.dims = [C, 1, 1])
    (hBt : add_B.data_type = TensorProto_DataType_FLOAT ∨
      add_B.data_type = TensorProto_DataType_DOUBLE)
    (harg : graph.GetNodeArg b_name = some add_B_node_arg)
    (hdag : ∀ y ∈ add_node.output_defs, y ∉ conv_node.input_defs ∧ y ∉ add_node.input_defs) :
    ∃ res conv_node',
      ConvAddFusion.Apply graph node modified removed = some res ∧
      res.status = Status.OK ∧
      res.graph.GetInitializedTensor b_name = some { add_B with dims := [C] } ∧
      res.graph.GetNodeArg b_name = some { add_B_node_arg with shape := some [C] } ∧
      res.graph.GetNode node = some conv_node' ∧
      conv_node'.input_defs = [x_name, w_name, add_B_node_arg.name] ∧
      conv_node'.input_arg_count[2]? = some 1 := by
  have hne : add ≠ node :=
    Graph.OutputNodesBegin_ne hconv hadd haddn (fun y hy => (hdag y hy).2)
  have hBn : add_B.name = b_name := Graph.GetInitializedTensor_name hB
  have han : add_B_node_arg.name = b_name := Graph.GetNodeArg_name harg
  have hsup : Initializer.IsSupportedDataType (some add_B) = true := by
    rcases hBt with h | h <;> simp [Initializer.IsSupportedDataType, h]
  have hfuse : ConvAddFusion.ApplyFusion graph node = some (.fused
      ((((graph.RemoveInitializedTensor add_B.name).AddInitializedTensor
          { add_B with dims := [C] }).SetShape add_B_node_arg.name [C]).setNode node
        { conv_node with
          input_defs := conv_node.input_defs ++ [add_B_node_arg.name]
          input_arg_count := conv_node.input_arg_count.set 2 1 }) add) := by
    have hw : conv_node.input_defs[1]? = some w_name := by rw [hin]; rfl
    have hlen : ¬ conv_node.input_defs.length = 3 := by rw [hin]; simp
    simp only [ConvAddFusion.ApplyFusion, hconv, hadd, haddn, hw, hb, hB, hW, hsup, hWd, hBd,
      ConvAddFusion.promoteToBias, hBn, harg, harity, hlen]
    simp
  refine ⟨_, { conv_node with
          input_defs := conv_node.input_defs ++ [add_B_node_arg.name]
          input_arg_count := conv_node.input_arg_count.set 2 1 },
    ConvAddFusion.Apply_of_fused hfuse modified removed, rfl, ?_, ?_, ?_, ?_, ?_⟩
  · simp only [Graph.GetInitializedTensor, RemoveSingleInputNode_initializers]
    have := Graph.GetInitializedTensor_replaced graph { add_B with dims := [C] }
    simp only [Graph.GetInitializedTensor] at this
    rw [← hBn]
    exact this
  · simp only [Graph.GetNodeArg, RemoveSingleInputNode_node_args, Graph.setNode]
    have := @Graph.GetNodeArg_SetShape α
      ((graph.RemoveInitializedTensor add_B.name).AddInitializedTensor { add_B with dims := [C] })
      b_name add_B_node_arg [C] harg
    simp only [Graph.GetNodeArg] at this
    rw [han] at this ⊢
    exact this
  · refine @RemoveSingleInputNode_GetNode_of_not_consumer α _ add node add_node _ ?_ ?_ ?_ ?_
    · rw [Graph.GetNode_setNode_ne _ _ (Ne.symm hne)]
      exact haddn
    · exact Graph.GetNode_setNode_self _ hconv
    · exact hne
    · intro y hy
      simp only [List.mem_append, List.mem_singleton, not_or]
      refine ⟨(hdag y hy).1, ?_⟩
      rw [han]
      intro hyb
      exact (hdag y hy).2 (hyb ▸ List.getElem?_mem hb)
  · simp [hin]
  · simp [List.getElem?_set, harity]

/-- C7, at the Conv node of `Example.noBias`: weight dims `[2,3,3,3]`, B of dims
`[2,1,1]`. -/
theorem C7_bias_promoted_from_add_constant_witness :
    ∃ res conv_node',
      ConvAddFusion.Apply Example.noBias 0 false false = some res ∧
      res.status = Status.OK ∧
      res.graph.GetInitializedTensor "B" = some { Example.addB with dims := [2] } ∧
      res.graph.GetNodeArg "B" = some ⟨"B", some [2]⟩ ∧
      res.graph.GetNode 0 = some conv_node' ∧
      conv_node'.input_defs = ["X", "W", "B"] ∧
      conv_node'.input_arg_count[2]? = some 1 :=
  C7_bias_promoted_from_add_constant Example.noBias 0 1
    (Example.mkNode "Conv" 1 ["X", "W"] ["Y"] [1, 1, 0])
    (Example.mkNode "Add" 7 ["Y", "B"] ["Z"] [1, 1])
    "X" "W" "B" Example.weight Example.addB ⟨"B", none⟩ 2 3 3 3 false false
    (by decide) (by decide) (by decide) rfl (by decide) rfl rfl rfl rfl rfl (Or.inl rfl) rfl
    (by decide)

/-- C8: fusion with an existing bias.  The Conv has the three inputs `x_name`, `w_name`
and `bias_name`, its bias initializer has dims `[C]`, the constant B of the Add has dims
`[C, 1, ..., 1]` of rank one less than the weight, whose rank is at least 4 and whose
leading dimension is `C`; B is float or double and the bias has the element type of B;
both payloads have `C` elements; no output of the Add is an input of the Conv or of the
Add.  Then `Apply` returns success, and afterwards the tensor registered under the name
of the bias has dims `[C]`, the same element type, and element `i` equal to
`old_bias[i] + B[i]` for every `i < C`; the input list of the Conv is unchanged and the
registry entry of B is unchanged. -/
theorem C8_bias_is_sum_of_bias_and_add_constant [Add α] (graph : Graph α) (node add : NodeIndex)
    (conv_node add_node : Node)
    (x_name w_name bias_name b_name : String) (conv_W conv_B add_B : TensorProto α)
    (C : Int) (modified removed : Bool)
    (hconv : graph.GetNode node = some conv_node)
    (hadd : graph.OutputNodesBegin node = some add)
    (haddn : graph.GetNode add = some add_node)
    (hin : conv_node.input_defs = [x_name, w_name, bias_name])
    (hb : add_node.input_defs[1]? = some b_name)
    (hW : graph.GetInitializedTensor w_name = some conv_W)
    (hWrank : 4 ≤ conv_W.dims.length)
    (hW0 : conv_W.dims[0]? = some C)
    (hB : graph.GetInitializedTensor b_name = some add_B)
    (hBd : add_B.dims = C :: List.replicate (conv_W.dims.length - 2) 1)
    (hBt : add_B.data_type = TensorProto_DataType_FLOAT ∨
      add_B.data_type = TensorProto_DataType_DOUBLE)
    (hBlen : (add_B.data.length : Int) = C)
    (hCb : graph.GetInitializedTensor bias_name = some conv_B)
    (hCbd : conv_B.dims = [C])
    (hCbt : conv_B.data_type = add_B.data_type)
    (hCblen : (conv_B.data.length : Int) = C)
    (hdag : ∀ y ∈ add_node.output_defs, y ∉ conv_node.input_defs ∧ y ∉ add_node.input_defs) :
    ∃ res new_bias,
      ConvAddFusion.Apply graph node modified removed = some res ∧
      res.status = Status.OK ∧
      res.graph.GetInitializedTensor bias_name = some new_bias ∧
      new_bias.dims = [C] ∧
      new_bias.data_type = conv_B.data_type ∧
      new_bias.data = List.zipWith (fun x y => x + y) conv_B.data add_B.data ∧
      (new_bias.data.length : Int) = C ∧
      (∀ i : Nat, (i : Int) < C → ∃ a b, conv_B.data[i]? = some a ∧ add_B.data[i]? = some b ∧
        new_bias.data[i]? = some (a + b)) ∧
      (∃ conv_node', res.graph.GetNode node = some conv_node' ∧
        conv_node'.input_defs = conv_node.input_defs) ∧
      res.graph.GetInitializedTensor b_name = some add_B := by
  have hne : add ≠ node :=
    Graph.OutputNodesBegin_ne hconv hadd haddn (fun y hy => (hdag y hy).2)
  have hBn : add_B.name = b_name := Graph.GetInitializedTensor_name hB
  have hCbn : conv_B.name = bias_name := Graph.GetInitializedTensor_name hCb
  have hsup : Initializer.IsSupportedDataType (some add_B) = true := by
    rcases hBt with h | h <;> simp [Initializer.IsSupportedDataType, h]
  have hsup' : Initializer.IsSupportedDataType (some conv_B) = true := by
    rcases hBt with h | h <;> simp [Initializer.IsSupportedDataType, hCbt, h]
  have hnames : b_name ≠ bias_name := by
    intro h
    rw [h, hCb] at hB
    cases hB
    rw [hCbd] at hBd
    have := congrArg List.length hBd
    simp at this
    omega
  have hw : conv_node.input_defs[1]? = some w_name := by rw [hin]; rfl
  have hbias : conv_node.input_defs[2]? = some bias_name := by rw [hin]; rfl
  have hlen : conv_node.input_defs.length = 3 := by rw [hin]; rfl
  have hrankW : ¬ conv_W.dims.length < 4 := by omega
  have hrankB : (add_B.dims.length : Int) = (conv_W.dims.length : Int) - 1 := by
    rw [hBd]; simp; omega
  have hB0 : add_B.dims[0]? = some C := by rw [hBd]; simp
  have hones : ((add_B.dims.drop 1).any fun d => d != 1) = false := by
    rw [hBd]
    simp [List.any_eq_false]
  have hsize : add_B.dims.prod = C := by
    rw [hBd]; simp
  have hfuse : ConvAddFusion.ApplyFusion graph node = some (.fused
      ((graph.RemoveInitializedTensor bias_name).AddInitializedTensor
        ⟨bias_name, conv_B.data_type, conv_B.dims,
          List.zipWith (fun x y => x + y) conv_B.data add_B.data⟩) add) := by
    simp only [ConvAddFusion.ApplyFusion, hconv, hadd, haddn, hw, hb, hB, hW, hsup, hrankW, hrankB,
      hW0, hB0, hones, hlen, ConvAddFusion.fuseIntoBias, hbias, hCb, hsup', hCbt, hCbd,
      Initializer.ofProto, Initializer.size, hsize, Initializer.add, Initializer.ToProto, hCbn]
    simp [hsize]
  refine ⟨_, ⟨bias_name, conv_B.data_type, conv_B.dims,
          List.zipWith (fun x y => x + y) conv_B.data add_B.data⟩,
    ConvAddFusion.Apply_of_fused hfuse modified removed, rfl, ?_, hCbd, rfl, rfl, ?_, ?_, ?_, ?_⟩
  · simp only [Graph.GetInitializedTensor, RemoveSingleInputNode_initializers]
    have := Graph.GetInitializedTensor_replaced graph (⟨bias_name, conv_B.data_type, conv_B.dims,
          List.zipWith (fun x y => x + y) conv_B.data add_B.data⟩ : TensorProto α)
    simp only [Graph.GetInitializedTensor] at this
    exact this
  · simp only [List.length_zipWith]
    omega
  · intro i hi
    have hi1 : i < conv_B.data.length := by omega
    have hi2 : i < add_B.data.length := by omega
    refine ⟨conv_B.data[i], add_B.data[i], List.getElem?_eq_getElem hi1,
      List.getElem?_eq_getElem hi2, ?_⟩
    simp [List.getElem?_zipWith, List.getElem?_eq_getElem hi1, List.getElem?_eq_getElem hi2]
  · refine ⟨conv_node, ?_, rfl⟩
    refine @RemoveSingleInputNode_GetNode_of_not_consumer α _ add node add_node _ ?_ ?_ ?_ ?_
    · exact haddn
    · exact hconv
    · exact hne
    · exact fun y hy => (hdag y hy).1
  · simp only [Graph.GetInitializedTensor, RemoveSingleInputNode_initializers]
    have := Graph.GetInitializedTensor_other graph (⟨bias_name, conv_B.data_type, conv_B.dims,
          List.zipWith (fun x y => x + y) conv_B.data add_B.data⟩ : TensorProto α)
      (m := b_name) hnames
    simp only [Graph.GetInitializedTensor] at this hB
    rw [this]
    exact hB

/-- C8, at the Conv node of `Example.withBias`: weight dims `[2,3,3,3]`, bias
`[1.0, 2.0]`, B of dims `[2,1,1]` with values `[0.5, -0.5]` give the bias `[1.5, 1.5]`. -/
theorem C8_bias_is_sum_of_bias_and_add_constant_witness :
    ∃ res new_bias,
      ConvAddFusion.Apply Example.withBias 0 false false = some res ∧
      res.graph.GetInitializedTensor "Cb" = some new_bias ∧
      new_bias.dims = [2] ∧
      new_bias.data = [3 / 2, 3 / 2] ∧
      (∃ conv_node', res.graph.GetNode 0 = some conv_node' ∧
        conv_node'.input_defs = ["X", "W", "Cb"]) ∧
      res.graph.GetInitializedTensor "B" = some Example.addB := by
  obtain ⟨res, new_bias, h1, -, h3, h4, -, h6, -, -, h9, h10⟩ :=
    C8_bias_is_sum_of_bias_and_add_constant Example.withBias 0 1
      (Example.mkNode "Conv" 1 ["X", "W", "Cb"] ["Y"] [1, 1, 0])
      (Example.mkNode "Add" 7 ["Y", "B"] ["Z"] [1, 1])
      "X" "W" "Cb" "B" Example.weight Example.convBias Example.addB 2 false false
      (by decide) (by decide) (by decide) rfl rfl rfl (by decide) rfl rfl rfl (Or.inl rfl) rfl
      rfl rfl rfl rfl (by decide)
  refine ⟨res, new_bias, h1, h3, h4, ?_, h9, h10⟩
  rw [h6]
  norm_num [Example.convBias, Example.addB]

/-- C9: all the shape and type checks of `Apply` pass, so that lines 16 to 93 hand the
rewritten graph `g1` and the Add node to the splice-out, and the Add is a node other
than the Conv.  Then `Apply` returns success on the graph the splice-out leaves, and it
sets `modified` to true exactly when `RemoveSingleInputNode` reports success (otherwise
the flag keeps its value).  In that case the Add node is absent, the number of live
nodes has gone down by exactly one, the Conv node is still live under its index, and
every input slot of another node that read an output of the Add now reads an output of
the Conv. -/
theorem C9_modified_exactly_when_add_spliced_out [Add α] (graph g1 : Graph α)
    (node add : NodeIndex) (modified removed : Bool)
    (hchecks : ConvAddFusion.ApplyFusion graph node = some (.fused g1 add))
    (hne : add ≠ node) :
    ∃ res, ConvAddFusion.Apply graph node modified removed = some res ∧
      res.status = Status.OK ∧
      res.graph = (RemoveSingleInputNode g1 add).2 ∧
      res.modified = (if (RemoveSingleInputNode g1 add).1 then true else modified) ∧
      ((RemoveSingleInputNode g1 add).1 = true →
        res.graph.GetNode add = none ∧
        res.graph.NumberOfNodes + 1 = graph.NumberOfNodes ∧
        (∃ conv_node', res.graph.GetNode node = some conv_node') ∧
        ∀ conv_node add_node, graph.GetNode node = some conv_node →
          graph.GetNode add = some add_node →
          ∀ (c : NodeIndex) (cn : Node) (j : Nat) (y : String), c ≠ add →
            graph.GetNode c = some cn → cn.input_defs[j]? = some y →
            y ∈ add_node.output_defs →
            ∃ cn' x, res.graph.GetNode c = some cn' ∧ cn'.input_defs[j]? = some x ∧
              x ∈ conv_node.output_defs) := by
  obtain ⟨conv_node, add_node, hconv, hadd, haddn, hnodes⟩ :=
    ConvAddFusion.ApplyFusion_fused_nodes hchecks
  refine ⟨_, ConvAddFusion.Apply_of_fused hchecks modified removed, rfl, rfl, rfl, ?_⟩
  intro hsucc
  -- the graph before the splice-out
  have hadd1 : g1.GetNode add = some add_node := by
    rcases hnodes with h | ⟨c', b, h, -, -⟩
    · simpa [Graph.GetNode, h] using haddn
    · have := Graph.GetNode_setNode_ne graph c' (Ne.symm hne)
      simp only [Graph.GetNode, Graph.setNode] at this haddn ⊢
      rw [h, this]; exact haddn
  have hcons1 : ∀ (c : NodeIndex) (cn : Node) (j : Nat) (y : String),
      graph.GetNode c = some cn → cn.input_defs[j]? = some y →
      ∃ cn1, g1.GetNode c = some cn1 ∧ cn1.input_defs[j]? = some y ∧
        (c = node → cn1.output_defs = conv_node.output_defs) := by
    intro c cn j y hc hj
    rcases hnodes with h | ⟨c', b, h, ho, hi⟩
    · refine ⟨cn, by simpa [Graph.GetNode, h] using hc, hj, ?_⟩
      intro hcn
      rw [hcn, hconv] at hc
      cases hc; rfl
    · by_cases hcn : c = node
      · subst hcn
        rw [hconv] at hc
        cases hc
        refine ⟨c', ?_, ?_, fun _ => ho⟩
        · have := Graph.GetNode_setNode_self c' hconv
          simp only [Graph.GetNode, Graph.setNode] at this ⊢
          rw [h]; exact this
        · rw [hi, List.getElem?_append_left (List.getElem?_eq_some.1 hj).1]
          exact hj
      · refine ⟨cn, ?_, hj, fun h => absurd h hcn⟩
        have := Graph.GetNode_setNode_ne graph c' (Ne.symm hcn)
        simp only [Graph.GetNode, Graph.setNode] at this hc ⊢
        rw [h, this]; exact hc
  have hconv1 : ∃ conv1, g1.GetNode node = some conv1 ∧
      conv1.output_defs = conv_node.output_defs := by
    rcases hnodes with h | ⟨c', b, h, ho, -⟩
    · exact ⟨conv_node, by simpa [Graph.GetNode, h] using hconv, rfl⟩
    · refine ⟨c', ?_, ho⟩
      have := Graph.GetNode_setNode_self c' hconv
      simp only [Graph.GetNode, Graph.setNode] at this ⊢
      rw [h]; exact this
  have hcount1 : g1.NumberOfNodes = graph.NumberOfNodes := by
    rw [Graph.NumberOfNodes_eq_countP, Graph.NumberOfNodes_eq_countP]
    rcases hnodes with h | ⟨c', b, h, -, -⟩
    · rw [h]
    · rw [h]
      exact countP_isSome_set_some _ _ _ _ (Graph.getElem?_of_GetNode hconv)
  rcases RemoveSingleInputNode_cases g1 add with h' | ⟨an, e, x, han, he, hx, h'⟩
  · rw [h'] at hsucc; cases hsucc
  rw [hadd1] at han
  cases han
  simp only [h']
  refine ⟨?_, ?_, ?_, ?_⟩
  · rw [GetNode_spliced]; simp
  · rw [← hcount1, Graph.NumberOfNodes_eq_countP, Graph.NumberOfNodes_eq_countP]
    have hmap : (g1.nodes.map (Option.map (rewireInputs add_node.output_defs x)))[add]?
        = some (some (rewireInputs add_node.output_defs x add_node)) := by
      rw [List.getElem?_map, Graph.getElem?_of_GetNode hadd1]; rfl
    have := countP_isSome_set_none _ _ _ hmap
    rw [countP_isSome_map] at this
    exact this
  · obtain ⟨conv1, hc1, -⟩ := hconv1
    rw [GetNode_spliced]
    simp [hne, hc1]
  · intro conv_node0 add_node0 h0 h1 c cn j y hc hcn hj hy
    rw [hconv] at h0
    cases h0
    rw [haddn] at h1
    cases h1
    obtain ⟨cn1, hcn1, hj1, -⟩ := hcons1 c cn j y hcn hj
    refine ⟨rewireInputs add_node.output_defs x cn1, x, ?_, ?_, ?_⟩
    · rw [GetNode_spliced]
      simp [Ne.symm hc, hcn1]
    · simp [rewireInputs, List.getElem?_map, hj1, hy]
    · obtain ⟨conv1, hc1, ho1⟩ := hconv1
      obtain ⟨e0, he0, hsrc0, hdst0⟩ := Graph.OutputNodesBegin_edge hadd
      obtain ⟨pn, cn0, name, hp, hcn0, hn1, hn2⟩ := Graph.mem_edges.1 he0
      rw [hsrc0, hconv] at hp
      rw [hdst0, haddn] at hcn0
      cases hp
      cases hcn0
      have he0' : e0 ∈ g1.edges := by
        rw [Graph.mem_edges]
        refine ⟨conv1, add_node, name, ?_, ?_, ?_, hn2⟩
        · rw [hsrc0]; exact hc1
        · rw [hdst0]; exact hadd1
        · rw [ho1]; exact hn1
      have hmem : e0 ∈ g1.InputEdges add := by
        unfold Graph.InputEdges
        simp [List.mem_filter, he0', hdst0]
      rw [he] at hmem
      simp only [List.mem_singleton] at hmem
      subst hmem
      rw [hx] at hn2
      cases hn2
      exact List.getElem?_mem hn1

/-- C9, at the Conv node of `Example.noBias`: the Add (node 1) is spliced out, `modified`
is set, and the Relu (node 2) reads the output `Y` of the Conv. -/
theorem C9_modified_exactly_when_add_spliced_out_witness :
    ∃ res, ConvAddFusion.Apply Example.noBias 0 false false = some res ∧
      res.status = Status.OK ∧
      res.modified = true ∧
      res.graph.GetNode 1 = none ∧
      res.graph.NumberOfNodes + 1 = Example.noBias.NumberOfNodes ∧
      (∃ conv_node', res.graph.GetNode 0 = some conv_node') ∧
      ∃ relu x, res.graph.GetNode 2 = some relu ∧ relu.input_defs[0]? = some x ∧ x ∈ ["Y"] := by
  obtain ⟨res, h1, h2, h3, h4, h5⟩ :=
    C9_modified_exactly_when_add_spliced_out Example.noBias
      ((((Example.noBias.RemoveInitializedTensor "B").AddInitializedTensor
          { Example.addB with dims := [2] }).SetShape "B" [2]).setNode 0
        (Example.mkNode "Conv" 1 ["X", "W", "B"] ["Y"] [1, 1, 1]))
      0 1 false false rfl (by decide)
  have hs : (RemoveSingleInputNode
      ((((Example.noBias.RemoveInitializedTensor "B").AddInitializedTensor
          { Example.addB with dims := [2] }).SetShape "B" [2]).setNode 0
        (Example.mkNode "Conv" 1 ["X", "W", "B"] ["Y"] [1, 1, 1])) 1).1 = true := by decide
  obtain ⟨h6, h7, h8, h9⟩ := h5 hs
  refine ⟨res, h1, h2, ?_, h6, h7, h8, ?_⟩
  · rw [h4, hs]; rfl
  · exact h9 (Example.mkNode "Conv" 1 ["X", "W"] ["Y"] [1, 1, 0])
      (Example.mkNode "Add" 7 ["Y", "B"] ["Z"] [1, 1]) (by decide) (by decide)
      2 (Example.mkNode "Relu" 6 ["Z"] ["Out"] [1]) 0 "Z" (by decide) (by decide) rfl (by decide)

/-- C10: precondition failures of `Apply` are no-ops.  The lookups of `Apply` succeed (the
node is live, it has a first consumer, the weight and B are registered).  Whenever B is
not float or double, or the weight has fewer than 4 dims, or the rank of B is not the
rank of the weight minus 1, or the leading dims differ, or some later dim of B is not 1,
or the Conv has 3 inputs and its registered bias has an unsupported element type, an
element type other than that of B, a rank other than 1, another leading dim or another
element count, or the Conv has 2 inputs and B has no NodeArg, then `Apply` returns
success with the graph exactly as it was; it does not write `modified`, which is false on
return when it was false on entry. -/
theorem C10_precondition_failure_is_noop [Add α] (graph : Graph α) (node add : NodeIndex)
    (conv_node add_node : Node)
    (w_name b_name : String) (conv_W add_B : TensorProto α) (modified removed : Bool)
    (hconv : graph.GetNode node = some conv_node)
    (hadd : graph.OutputNodesBegin node = some add)
    (haddn : graph.GetNode add = some add_node)
    (hw : conv_node.input_defs[1]? = some w_name)
    (hb : add_node.input_defs[1]? = some b_name)
    (hW : graph.GetInitializedTensor w_name = some conv_W)
    (hB : graph.GetInitializedTensor b_name = some add_B)
    (hfail :
      Initializer.IsSupportedDataType (some add_B) = false ∨
      conv_W.dims.length < 4 ∨
      (add_B.dims.length : Int) ≠ (conv_W.dims.length : Int) - 1 ∨
      conv_W.dims[0]? ≠ add_B.dims[0]? ∨
      (∃ i d, 1 ≤ i ∧ add_B.dims[i]? = some d ∧ d ≠ 1) ∨
      (conv_node.input_defs.length = 3 ∧ ∃ bias_name conv_B,
        conv_node.input_defs[2]? = some bias_name ∧
        graph.GetInitializedTensor bias_name = some conv_B ∧
        (Initializer.IsSupportedDataType (some conv_B) = false ∨
          conv_B.data_type ≠ add_B.data_type ∨
          conv_B.dims.length ≠ 1 ∨
          conv_B.dims[0]? ≠ add_B.dims[0]? ∨
          conv_B.dims.prod ≠ add_B.dims.prod)) ∨
      (conv_node.input_defs.length = 2 ∧ graph.GetNodeArg add_B.name = none)) :
    ConvAddFusion.Apply graph node modified removed =
      some ⟨Status.OK, graph, modified, removed⟩ := by
  apply ConvAddFusion.Apply_of_skipped
  simp only [ConvAddFusion.ApplyFusion, hconv, hadd, haddn, hw, hb, hW, hB]
  by_cases h1 : Initializer.IsSupportedDataType (some add_B) = false
  · simp [h1]
  by_cases h2 : conv_W.dims.length < 4
  · simp [h1, h2]
  by_cases h3 : (add_B.dims.length : Int) ≠ (conv_W.dims.length : Int) - 1
  · simp [h1, h2, h3]
  simp only [Bool.not_eq_false] at h1
  simp only [not_lt] at h2
  simp only [ne_eq, Decidable.not_not] at h3
  have hBlen : 3 ≤ add_B.dims.length := by omega
  obtain ⟨w0, hw0⟩ : ∃ w0, conv_W.dims[0]? = some w0 :=
    ⟨conv_W.dims[0], List.getElem?_eq_getElem (by omega)⟩
  obtain ⟨b0, hb0⟩ : ∃ b0, add_B.dims[0]? = some b0 :=
    ⟨add_B.dims[0], List.getElem?_eq_getElem (by omega)⟩
  have hlen : ¬ (conv_W.dims.length < 4) := by omega
  simp only [h1, Bool.not_true, Bool.false_eq_true, ↓reduceIte, hw0, hb0, decide_eq_true_eq, hlen, h3,
    bne_self_eq_false, Bool.or_self, decide_False]
  by_cases h4 : w0 = b0
  swap
  · simp [h4]
  subst h4
  by_cases h5 : ((add_B.dims.drop 1).any fun d => d != 1) = true
  · simp only [bne_self_eq_false, Bool.false_eq_true, ↓reduceIte, h5]
  simp only [bne_self_eq_false, Bool.false_eq_true, ↓reduceIte, h5]
  have hall : ¬ ∃ i d, 1 ≤ i ∧ add_B.dims[i]? = some d ∧ d ≠ 1 := by
    rintro ⟨i, d, hi, hd, hne⟩
    apply h5
    rw [List.any_eq_true]
    refine ⟨d, ?_, by simpa using hne⟩
    rw [List.mem_iff_getElem?]
    refine ⟨i - 1, ?_⟩
    rw [List.getElem?_drop]
    rw [show 1 + (i - 1) = i by omega]
    exact hd
  rcases hfail with h | h | h | h | h | h | h
  · rw [h1] at h; cases h
  · omega
  · exact absurd h3 h
  · rw [hw0, hb0] at h; exact absurd rfl h
  · exact absurd h hall
  · obtain ⟨h3in, bias_name, conv_B, hbn, hCb, hbad⟩ := h
    simp only [h3in, ↓reduceIte, ConvAddFusion.fuseIntoBias, hbn, hCb]
    by_cases c1 : Initializer.IsSupportedDataType (some conv_B) = false
    · simp [c1]
    by_cases c2 : conv_B.data_type ≠ add_B.data_type
    · simp [c2]
    by_cases c3 : conv_B.dims.length ≠ 1
    · simp [c3]
    simp only [Bool.not_eq_false] at c1
    simp only [ne_eq, Decidable.not_not] at c2 c3
    obtain ⟨c0, hc0⟩ : ∃ c0, conv_B.dims[0]? = some c0 :=
      ⟨conv_B.dims[0], List.getElem?_eq_getElem (by omega)⟩
    simp only [c1, c2, c3, hc0, Bool.not_true, bne_self_eq_false, Bool.or_self,
      Bool.false_eq_true, ↓reduceIte]
    by_cases c4 : c0 = w0
    swap
    · simp [c4]
    subst c4
    simp only [Initializer.ofProto, c1, h1, ↓reduceIte, bne_self_eq_false, Bool.false_eq_true,
      Initializer.size]
    by_cases c5 : conv_B.dims.prod = add_B.dims.prod
    swap
    · simp [c5]
    rcases hbad with h | h | h | h | h
    · rw [c1] at h; cases h
    · exact absurd c2 h
    · exact absurd c3 h
    · rw [hc0, hb0] at h; exact absurd rfl h
    · exact absurd c5 h
  · obtain ⟨h2in, harg⟩ := h
    simp [h2in, ConvAddFusion.promoteToBias, harg]

/-- C10, at the Conv node of `Example.intB`, where B has element type INT64. -/
theorem C10_precondition_failure_is_noop_witness :
    ConvAddFusion.Apply Example.intB 0 false false =
      some ⟨Status.OK, Example.intB, false, false⟩ :=
  C10_precondition_failure_is_noop Example.intB 0 1
    (Example.mkNode "Conv" 1 ["X", "W"] ["Y"] [1, 1, 0])
    (Example.mkNode "Add" 7 ["Y", "B"] ["Z"] [1, 1])
    "W" "B" Example.weight { Example.addB with data_type := 7 } false false
    (by decide) (by decide) (by decide) rfl rfl rfl rfl (Or.inl (by decide))


/-! ## Lemmas on lines 16 to 93 of `ConvAddFusion::Apply` -/

/-- What has been checked and what has been rewritten when lines 16 to 93 of `Apply`
hand a graph to the splice-out. -/
theorem ConvAddFusion.ApplyFusion_fused_inv [Add α] {graph g1 : Graph α} {node a : NodeIndex}
    (h : ConvAddFusion.ApplyFusion graph node = some (.fused g1 a)) :
    ∃ conv_node add_node w_name b_name conv_W add_B w0,
      graph.GetNode node = some conv_node ∧
      graph.OutputNodesBegin node = some a ∧
      graph.GetNode a = some add_node ∧
      conv_node.input_defs[1]? = some w_name ∧
      add_node.input_defs[1]? = some b_name ∧
      graph.GetInitializedTensor w_name = some conv_W ∧
      graph.GetInitializedTensor b_name = some add_B ∧
      Initializer.IsSupportedDataType (some add_B) = true ∧
      4 ≤ conv_W.dims.length ∧
      add_B.dims.length + 1 = conv_W.dims.length ∧
      conv_W.dims[0]? = some w0 ∧
      add_B.dims[0]? = some w0 ∧
      (∀ d ∈ add_B.dims.drop 1, d = 1) ∧
      ((conv_node.input_defs.length = 3 ∧ ∃ bias_name conv_B,
          conv_node.input_defs[2]? = some bias_name ∧
          graph.GetInitializedTensor bias_name = some conv_B ∧
          Initializer.IsSupportedDataType (some conv_B) = true ∧
          conv_B.data_type = add_B.data_type ∧
          conv_B.dims = [w0] ∧
          g1 = (graph.RemoveInitializedTensor bias_name).AddInitializedTensor
            ⟨conv_B.name, conv_B.data_type, conv_B.dims,
              List.zipWith (fun x y => x + y) conv_B.data add_B.data⟩) ∨
       (conv_node.input_defs.length ≠ 3 ∧ ∃ add_B_node_arg,
          graph.GetNodeArg add_B.name = some add_B_node_arg ∧
          2 < conv_node.input_arg_count.length ∧
          g1 = (((graph.RemoveInitializedTensor add_B.name).AddInitializedTensor
              { add_B with dims := [w0] }).SetShape add_B_node_arg.name [w0]).setNode node
            { conv_node with
              input_defs := conv_node.input_defs ++ [add_B_node_arg.name]
              input_arg_count := conv_node.input_arg_count.set 2 1 })) := by
  unfold ConvAddFusion.ApplyFusion at h
  split at h
  · cases h
  rename_i conv_node hconv
  split at h
  · cases h
  rename_i add_index hadd
  split at h
  · cases h
  rename_i add_node haddn
  split at h
  swap
  · cases h
  rename_i w_name b_name hw hb
  split at h
  · cases h
  rename_i add_B hB
  split at h
  · cases h
  rename_i hsup
  split at h
  · cases h
  rename_i conv_W hW
  split at h
  · cases h
  rename_i hrank
  split at h
  swap
  · cases h
  rename_i w0 b0 hw0 hb0
  split at h
  · cases h
  rename_i hwb
  split at h
  · cases h
  rename_i hones
  simp only [Bool.not_eq_true, Bool.not_eq_false'] at hsup
  simp only [Bool.or_eq_true, decide_eq_true_eq, bne_iff_ne, ne_eq, not_or, not_lt,
    Decidable.not_not] at hrank
  simp only [bne_iff_ne, ne_eq, Decidable.not_not] at hwb
  subst hwb
  have hones' : ∀ d ∈ add_B.dims.drop 1, d = 1 := by
    intro d hd
    by_contra hne
    apply hones
    rw [List.any_eq_true]
    exact ⟨d, hd, by simpa using hne⟩
  have hlenB : add_B.dims.length + 1 = conv_W.dims.length := by omega
  split at h
  · rename_i hlen3
    unfold ConvAddFusion.fuseIntoBias at h
    split at h
    · cases h
    rename_i bias_name hbias
    split at h
    · cases h
    rename_i conv_B hCb
    split at h
    · cases h
    rename_i hchk
    split at h
    · cases h
    rename_i c0 hc0
    split at h
    · cases h
    rename_i hc0b
    split at h
    swap
    · cases h
    rename_i cB aB hcB haB
    split at h
    · cases h
    simp only [Option.some.injEq, ConvAddFusion.Rewrite.fused.injEq] at h
    obtain ⟨hg, ha⟩ := h
    subst ha
    simp only [Bool.or_eq_true, Bool.not_eq_true', bne_iff_ne, ne_eq, not_or,
      Bool.not_eq_false, Decidable.not_not] at hchk
    simp only [bne_iff_ne, ne_eq, Decidable.not_not] at hc0b
    subst hc0b
    obtain ⟨⟨hsupB, htype⟩, hlen1⟩ := hchk
    have hdims : conv_B.dims = [c0] := by
      match hd : conv_B.dims, hlen1, hc0 with
      | [x], _, hx =>
        simp only [List.getElem?_cons_zero, Option.some.injEq] at hx
        rw [hx]
    simp only [Initializer.ofProto, hsupB, hsup, ↓reduceIte, Option.some.injEq] at hcB haB
    subst hcB
    subst haB
    refine ⟨conv_node, add_node, w_name, b_name, conv_W, add_B, c0, hconv, hadd, haddn, hw, hb,
      hW, hB, hsup, hrank.1, hlenB, hw0, hb0, hones', Or.inl ⟨hlen3, bias_name, conv_B, hbias,
      hCb, hsupB, htype, hdims, ?_⟩⟩
    rw [← hg]
    rfl
  · rename_i hlen3
    unfold ConvAddFusion.promoteToBias at h
    split at h
    · cases h
    rename_i arg harg
    simp only at h
    split at h
    swap
    · cases h
    rename_i harity
    simp only [Option.some.injEq, ConvAddFusion.Rewrite.fused.injEq] at h
    obtain ⟨hg, ha⟩ := h
    subst ha
    refine ⟨conv_node, add_node, w_name, b_name, conv_W, add_B, w0, hconv, hadd, haddn, hw, hb,
      hW, hB, hsup, hrank.1, hlenB, hw0, hb0, hones', Or.inr ⟨hlen3, arg, harg, harity, ?_⟩⟩
    rw [← hg]

/-- The first consumer of a node that does not read its own outputs is another node. -/
theorem Graph.OutputNodesBegin_ne_self {g : Graph α} {node add : NodeIndex} {conv_node : Node}
    (hconv : g.GetNode node = some conv_node)
    (hadd : g.OutputNodesBegin node = some add)
    (hdag : ∀ y ∈ conv_node.output_defs, y ∉ conv_node.input_defs) :
    add ≠ node := by
  intro heq
  subst heq
  obtain ⟨e, he, hsrc, hdst⟩ := Graph.OutputNodesBegin_edge hadd
  obtain ⟨pn, cn, name, hp, hcn, h1, h2⟩ := Graph.mem_edges.1 he
  rw [hsrc, hconv] at hp
  rw [hdst, hconv] at hcn
  cases hp
  cases hcn
  exact hdag name (List.getElem?_mem h1) (List.getElem?_mem h2)

/-- Lines 16 to 93 of `Apply` leave the Conv node live, with its operator type and
outputs. -/
theorem ConvAddFusion.ApplyFusion_fused_conv [Add α] {graph g1 : Graph α} {node a : NodeIndex}
    {conv_node : Node} (hconv : graph.GetNode node = some conv_node)
    (h : ConvAddFusion.ApplyFusion graph node = some (.fused g1 a)) :
    ∃ conv1, g1.GetNode node = some conv1 ∧ conv1.op_type = conv_node.op_type ∧
      conv1.output_defs = conv_node.output_defs := by
  obtain ⟨conv_node', add_node, w_name, b_name, conv_W, add_B, w0, hconv', -, -, -, -, -, -, -,
    -, -, -, -, -, hbranch⟩ := ConvAddFusion.ApplyFusion_fused_inv h
  rw [hconv] at hconv'
  cases hconv'
  rcases hbranch with ⟨-, bias_name, conv_B, -, -, -, -, -, hg⟩ | ⟨-, arg, -, -, hg⟩
  · subst hg
    exact ⟨conv_node, hconv, rfl, rfl⟩
  · subst hg
    exact ⟨_, Graph.GetNode_setNode_self _ hconv, rfl, rfl⟩

/-- Remove and add under a registered name keep the set of registered names. -/
theorem Graph.initializer_names_replaced (g : Graph α) (t u0 : TensorProto α)
    (hreg : g.GetInitializedTensor t.name = some u0) (n : String) :
    n ∈ ((g.RemoveInitializedTensor t.name).AddInitializedTensor t).initializers.map
        (fun u => u.name) ↔
      n ∈ g.initializers.map (fun u => u.name) := by
  have hu0 : u0 ∈ g.initializers := List.mem_of_find?_eq_some hreg
  have hname : u0.name = t.name := Graph.GetInitializedTensor_name hreg
  simp only [Graph.AddInitializedTensor, Graph.RemoveInitializedTensor, List.map_append,
    List.mem_append, List.mem_map, List.mem_filter, List.mem_singleton]
  constructor
  · rintro (⟨u, ⟨⟨hu, -⟩, -⟩, rfl⟩ | ⟨u, rfl, rfl⟩)
    · exact ⟨u, hu, rfl⟩
    · exact ⟨u0, hu0, hname⟩
  · rintro ⟨u, hu, rfl⟩
    by_cases hk : u.name = t.name
    · exact Or.inr ⟨t, rfl, hk.symm⟩
    · exact Or.inl ⟨u, ⟨⟨hu, by simpa using hk⟩, by simpa using hk⟩, rfl⟩

/-- A dimension list whose entries after the first are 1 is the first entry followed by
ones, and its product is the first entry. -/
theorem dims_eq_cons_replicate {dims : List Int} {C : Int} (h0 : dims[0]? = some C)
    (hones : ∀ d ∈ dims.drop 1, d = 1) :
    dims = C :: List.replicate (dims.length - 1) 1 ∧ dims.prod = C := by
  cases dims with
  | nil => simp at h0
  | cons x rest =>
    simp only [List.getElem?_cons_zero, Option.some.injEq] at h0
    subst h0
    simp only [List.drop_succ_cons, List.drop_zero] at hones
    have hrest : rest = List.replicate rest.length 1 :=
      List.eq_replicate_iff.2 ⟨rfl, hones⟩
    constructor
    · simp only [List.length_cons, Nat.add_sub_cancel]
      rw [← hrest]
    · rw [List.prod_cons, hrest, List.prod_replicate]
      simp

/-- The edges between two nodes that enter node `a`: all of them when the consumer is
`a`, none otherwise. -/
theorem filter_dst_edgesBetween (p c a : NodeIndex) (pn cn : Node) :
    (edgesBetween p pn c cn).filter (fun e => e.dst == a) =
      if c = a then edgesBetween p pn c cn else [] := by
  by_cases hca : c = a
  · simp only [hca, ↓reduceIte]
    rw [List.filter_eq_self]
    intro e he
    have := (mem_edgesBetween.1 he).2.1
    simp [this]
  · simp only [hca, ↓reduceIte]
    rw [List.filter_eq_nil_iff]
    intro e he
    have := (mem_edgesBetween.1 he).2.1
    simp [this, hca]

/-- The edges entering a node, listed by producer. -/
theorem Graph.InputEdges_eq_flatMap (g : Graph α) (a : NodeIndex) :
    g.InputEdges a = g.liveNodes.flatMap fun p =>
      g.liveNodes.flatMap fun c => if c.1 = a then edgesBetween p.1 p.2 c.1 c.2 else [] := by
  unfold Graph.InputEdges Graph.edges
  rw [List.filter_flatMap]
  apply List.flatMap_congr
  intro p _
  rw [List.filter_flatMap]
  apply List.flatMap_congr
  intro c _
  exact filter_dst_edgesBetween p.1 c.1 a p.2 c.2

/-- The edges between two nodes depend on the producer through its outputs only. -/
theorem edgesBetween_congr (p c : NodeIndex) {pn pn' : Node} (cn : Node)
    (h : pn'.output_defs = pn.output_defs) :
    edgesBetween p pn' c cn = edgesBetween p pn c cn := by
  unfold edgesBetween
  rw [h]

/-- Overwriting a live slot of an enumerated arena replaces the node of that index in
the list of live entries. -/
theorem filterMap_enumFrom_set (l : List (Option Node)) (i k : Nat) (n n' : Node)
    (h : l[i]? = some (some n)) :
    ((l.set i (some n')).enumFrom k).filterMap (fun p => p.2.map fun m => (p.1, m)) =
      ((l.enumFrom k).filterMap (fun p => p.2.map fun m => (p.1, m))).map
        (fun p => if p.1 = k + i then (p.1, n') else p) := by
  induction l generalizing i k with
  | nil => simp at h
  | cons a l ih =>
    cases i with
    | zero =>
      simp only [List.getElem?_cons_zero, Option.some.injEq] at h
      subst h
      simp only [List.set_cons_zero, List.enumFrom_cons, List.filterMap_cons, Option.map_some',
        List.map_cons, Nat.add_zero, ↓reduceIte, List.cons.injEq, true_and]
      symm
      conv_rhs => rw [← List.map_id (List.filterMap _ _)]
      apply List.map_congr_left
      intro p hp
      simp only [List.mem_filterMap, Option.map_eq_some'] at hp
      obtain ⟨q, hq, m, -, rfl⟩ := hp
      have := List.le_fst_of_mem_enumFrom hq
      have hne : ¬ q.1 = k := by omega
      simp [hne]
    | succ i =>
      simp only [List.getElem?_cons_succ] at h
      have := ih i (k + 1) h
      simp only [List.set_cons_succ, List.enumFrom_cons, List.filterMap_cons]
      cases a with
      | none =>
        simp only [Option.map_none']
        rw [this]
        apply List.map_congr_left
        intro p _
        rw [show k + 1 + i = k + (i + 1) by omega]
      | some m =>
        simp only [Option.map_some', List.map_cons]
        have hne : ¬ k = k + (i + 1) := by omega
        simp only [hne, ↓reduceIte, List.cons.injEq, true_and]
        rw [this]
        apply List.map_congr_left
        intro p _
        rw [show k + 1 + i = k + (i + 1) by omega]

/-- The live nodes after a write through a node reference. -/
theorem Graph.liveNodes_setNode (g : Graph α) (i : NodeIndex) (n n' : Node)
    (h : g.GetNode i = some n) :
    (g.setNode i n').liveNodes = g.liveNodes.map (fun p => if p.1 = i then (p.1, n') else p) := by
  have := filterMap_enumFrom_set g.nodes i 0 n n' (Graph.getElem?_of_GetNode h)
  simp only [Nat.zero_add] at this
  exact this

/-- A write to a node that keeps its outputs does not change the edges entering another
node. -/
theorem Graph.InputEdges_setNode (g : Graph α) (i a : NodeIndex) (n n' : Node)
    (h : g.GetNode i = some n) (hout : n'.output_defs = n.output_defs) (hne : a ≠ i) :
    (g.setNode i n').InputEdges a = g.InputEdges a := by
  rw [Graph.InputEdges_eq_flatMap, Graph.InputEdges_eq_flatMap, Graph.liveNodes_setNode g i n n' h,
    List.flatMap_map]
  apply List.flatMap_congr
  intro p hp
  rw [List.flatMap_map]
  apply List.flatMap_congr
  intro c _
  obtain ⟨pi, pn⟩ := p
  obtain ⟨ci, cn⟩ := c
  have hp1 : (if pi = i then (pi, n') else (pi, pn)).1 = pi := by split <;> rfl
  have hc1 : (if ci = i then (ci, n') else (ci, cn)).1 = ci := by split <;> rfl
  simp only [hp1, hc1]
  by_cases hca : ci = a
  · subst hca
    simp only [↓reduceIte, hne]
    by_cases hpi : pi = i
    · subst hpi
      have hpn : pn = n := by
        have := Graph.mem_liveNodes.1 hp
        rw [h] at this
        exact (Option.some.inj this).symm
      simp only [↓reduceIte]
      rw [hpn]
      exact edgesBetween_congr pi ci cn hout
    · simp only [hpi, ↓reduceIte]
  · simp only [hca, ↓reduceIte]

/-- On a node that the predicate accepts, the splice-out that follows the rewrite of
lines 16 to 93 succeeds. -/
theorem ConvAddFusion.splice_out_succeeds [Add α] (kOnnxDomain : String) (graph g1 : Graph α)
    (node a : NodeIndex)
    (hsat : ConvAddFusion.SatisfyCondition kOnnxDomain graph node = true)
    (hf : ConvAddFusion.ApplyFusion graph node = some (.fused g1 a)) :
    (RemoveSingleInputNode g1 a).1 = true := by
  obtain ⟨conv_node, next, next_node, hc, hconvop, -, hn, hnn, haddop, -, hcount, -⟩ :=
    (ConvAddFusion.SatisfyCondition_iff kOnnxDomain graph node).1 hsat
  obtain ⟨conv_node', add_node, w_name, b_name, conv_W, add_B, w0, hconv', hadd, haddn, -, -, -,
    -, -, -, -, -, -, -, hbranch⟩ := ConvAddFusion.ApplyFusion_fused_inv hf
  rw [hc] at hconv'
  cases hconv'
  have hna : next = a := Option.some.inj (hn.symm.trans hadd)
  subst hna
  rw [hnn] at haddn
  cases haddn
  have hne : next ≠ node := by
    intro heq
    rw [heq, hc] at hnn
    cases hnn
    simp only [IsSupportedOptypeVersionAndDomain, Bool.and_eq_true, beq_iff_eq] at hconvop haddop
    rw [hconvop.1.1] at haddop
    exact absurd haddop.1.1 (by decide)
  have hedges : g1.InputEdges next = graph.InputEdges next ∧ g1.GetNode next = some next_node := by
    rcases hbranch with ⟨-, bias_name, conv_B, -, -, -, -, -, hg⟩ | ⟨-, arg, -, -, hg⟩
    · subst hg
      exact ⟨rfl, hnn⟩
    · subst hg
      constructor
      · exact Graph.InputEdges_setNode _ node next conv_node _ hc rfl hne
      · rw [Graph.GetNode_setNode_ne _ _ (Ne.symm hne)]
        exact hnn
  obtain ⟨e, he⟩ : ∃ e, graph.InputEdges next = [e] := by
    unfold Graph.GetInputEdgesCount at hcount
    match hl : graph.InputEdges next, hcount with
    | [e], _ => exact ⟨e, rfl⟩
  have hmem : e ∈ graph.InputEdges next := by rw [he]; simp
  unfold Graph.InputEdges at hmem
  simp only [List.mem_filter, beq_iff_eq] at hmem
  obtain ⟨pn, cn, name, -, hcn, -, hname⟩ := Graph.mem_edges.1 hmem.1
  rw [hmem.2, hnn] at hcn
  cases hcn
  unfold RemoveSingleInputNode
  rw [hedges.2, hedges.1, he]
  simp only [hname]

/-! ## Lemmas on the rewrite driver -/

/-- The rules on one node only add calls that pass the pre-filter. -/
theorem Driver.applyRules_targeted (rules : List (RewriteRule (Graph α)))
    (l : List (Nat × RewriteRule (Graph α))) (hl : ∀ p ∈ l, rules[p.1]? = some p.2)
    (node : NodeIndex) (s : DriverState α) (st : Status) (s' : DriverState α)
    (h : Driver.applyRules l node s = some (st, s'))
    (hs : Driver.CallsTargeted rules s) : Driver.CallsTargeted rules s' := by
  induction l generalizing s with
  | nil =>
    simp only [Driver.applyRules, Option.some.injEq, Prod.mk.injEq] at h
    rw [← h.2]; exact hs
  | cons p rest ih =>
    obtain ⟨k, r⟩ := p
    have hrest : ∀ q ∈ rest, rules[q.1]? = some q.2 :=
      fun q hq => hl q (List.mem_cons_of_mem _ hq)
    have hk : rules[k]? = some r := hl (k, r) (List.mem_cons_self _ _)
    simp only [Driver.applyRules] at h
    split at h
    · simp only [Option.some.injEq, Prod.mk.injEq] at h
      rw [← h.2]; exact hs
    · split at h
      · simp only [Option.some.injEq, Prod.mk.injEq] at h
        rw [← h.2]; exact hs
      · rename_i n hn
        split at h
        · rename_i htarget
          split at h
          · cases h
          · rename_i res hres
            have hs1 : Driver.CallsTargeted rules
                { graph := res.graph
                  modified := s.modified || res.modified
                  deleted := if res.deleted then node :: s.deleted else s.deleted
                  calls := s.calls ++ [⟨k, node, n.op_type,
                    (r.CheckConditionAndApply s.graph node false false).applyCalls⟩] } := by
              intro c hc
              simp only [List.mem_append, List.mem_singleton] at hc
              rcases hc with hc | hc
              · exact hs c hc
              · subst hc
                exact ⟨r, hk, htarget⟩
            split at h
            · exact ih hrest _ h hs1
            · simp only [Option.some.injEq, Prod.mk.injEq] at h
              rw [← h.2]; exact hs1
        · exact ih hrest _ h hs

/-- A pass only adds calls that pass the pre-filter. -/
theorem Driver.pass_targeted (rules : List (RewriteRule (Graph α)))
    (nodes : List NodeIndex) (s : DriverState α) (st : Status) (s' : DriverState α)
    (h : Driver.pass rules nodes s = some (st, s'))
    (hs : Driver.CallsTargeted rules s) : Driver.CallsTargeted rules s' := by
  induction nodes generalizing s with
  | nil =>
    simp only [Driver.pass, Option.some.injEq, Prod.mk.injEq] at h
    rw [← h.2]; exact hs
  | cons node nodes ih =>
    simp only [Driver.pass] at h
    have henum : ∀ p ∈ rules.enum, rules[p.1]? = some p.2 :=
      fun p hp => List.mem_enum_iff_getElem?.1 hp
    split at h
    · cases h
    · rename_i s1 h1
      exact ih _ h (Driver.applyRules_targeted rules _ henum node s _ s1 h1 hs)
    · rename_i msg s1 h1
      simp only [Option.some.injEq, Prod.mk.injEq] at h
      rw [← h.2]
      exact Driver.applyRules_targeted rules _ henum node s _ s1 h1 hs

/-- A run only adds calls that pass the pre-filter. -/
theorem Driver.run_targeted (rules : List (RewriteRule (Graph α)))
    (max_passes : Nat) (s : DriverState α) (st : Status) (s' : DriverState α)
    (h : Driver.run rules max_passes s = some (st, s'))
    (hs : Driver.CallsTargeted rules s) : Driver.CallsTargeted rules s' := by
  induction max_passes generalizing s with
  | zero =>
    simp only [Driver.run, Option.some.injEq, Prod.mk.injEq] at h
    rw [← h.2]; exact hs
  | succ m ih =>
    simp only [Driver.run] at h
    have hs0 : Driver.CallsTargeted rules { s with modified := false } := hs
    split at h
    · cases h
    · rename_i s1 h1
      have hs1 := Driver.pass_targeted rules _ _ _ s1 h1 hs0
      split at h
      · exact ih _ h hs1
      · simp only [Option.some.injEq, Prod.mk.injEq] at h
        rw [← h.2]; exact hs1
    · rename_i msg s1 h1
      simp only [Option.some.injEq, Prod.mk.injEq] at h
      rw [← h.2]
      exact Driver.pass_targeted rules _ _ _ s1 h1 hs0

/-- A one-element target set lets only its element through. -/
theorem isTargeted_singleton {t op : String} (h : isTargeted [t] op = true) : op = t := by
  simpa [isTargeted] using h

/-- No call of `CheckConditionAndApply` changes the rule object. -/
theorem RewriteRule.afterCalls_eq {G : Type} (r : RewriteRule G)
    (calls : List (G × NodeIndex × Bool × Bool)) : r.afterCalls calls = r := by
  induction calls with
  | nil => rfl
  | cons c cs ih => simpa [RewriteRule.afterCalls] using ih

/-! ## Atomicity, filtering, identity and frame of the rules -/

/-- Lines 16 to 93 of `Apply` have a result when the node is live, it has a live first
consumer, both have an input in slot 1, the weight is a registered initializer and the
arity list of the node has a slot 2. -/
theorem ConvAddFusion.ApplyFusion_defined [Add α] {graph : Graph α} {node add : NodeIndex}
    {conv_node add_node : Node} {w_name b_name : String} {conv_W : TensorProto α}
    (hconv : graph.GetNode node = some conv_node)
    (hadd : graph.OutputNodesBegin node = some add)
    (haddn : graph.GetNode add = some add_node)
    (hw : conv_node.input_defs[1]? = some w_name)
    (hb : add_node.input_defs[1]? = some b_name)
    (hW : graph.GetInitializedTensor w_name = some conv_W)
    (harity : 2 < conv_node.input_arg_count.length) :
    ∃ outcome, ConvAddFusion.ApplyFusion graph node = some outcome := by
  simp only [ConvAddFusion.ApplyFusion, hconv, hadd, haddn, hw, hb, hW]
  cases hB : graph.GetInitializedTensor b_name with
  | none => exact ⟨_, rfl⟩
  | some add_B =>
    simp only
    by_cases h1 : Initializer.IsSupportedDataType (some add_B) = false
    · exact ⟨.skipped, by simp [h1]⟩
    by_cases h2 : conv_W.dims.length < 4
    · exact ⟨.skipped, by simp [h1, h2]⟩
    by_cases h3 : (add_B.dims.length : Int) ≠ (conv_W.dims.length : Int) - 1
    · exact ⟨.skipped, by simp [h1, h2, h3]⟩
    simp only [Bool.not_eq_false] at h1
    simp only [ne_eq, Decidable.not_not] at h3
    obtain ⟨w0, hw0⟩ : ∃ w0, conv_W.dims[0]? = some w0 :=
      ⟨conv_W.dims[0], List.getElem?_eq_getElem (by omega)⟩
    obtain ⟨b0, hb0⟩ : ∃ b0, add_B.dims[0]? = some b0 :=
      ⟨add_B.dims[0], List.getElem?_eq_getElem (by omega)⟩
    simp only [h1, Bool.not_true, Bool.false_eq_true, ↓reduceIte, hw0, hb0, decide_eq_true_eq, h2,
      h3, bne_self_eq_false, Bool.or_self, decide_False]
    by_cases h4 : w0 = b0
    swap
    · exact ⟨.skipped, by simp [h4]⟩
    subst h4
    by_cases h5 : ((add_B.dims.drop 1).any fun d => d != 1) = true
    · exact ⟨.skipped, by simp only [bne_self_eq_false, Bool.false_eq_true, ↓reduceIte, h5]⟩
    simp only [bne_self_eq_false, Bool.false_eq_true, ↓reduceIte, h5]
    by_cases hlen : conv_node.input_defs.length = 3
    · simp only [hlen, ↓reduceIte, ConvAddFusion.fuseIntoBias]
      obtain ⟨bias_name, hbias⟩ : ∃ bias_name, conv_node.input_defs[2]? = some bias_name :=
        ⟨conv_node.input_defs[2], List.getElem?_eq_getElem (by omega)⟩
      simp only [hbias]
      cases hCb : graph.GetInitializedTensor bias_name with
      | none => exact ⟨_, rfl⟩
      | some conv_B =>
        simp only
        by_cases c1 : Initializer.IsSupportedDataType (some conv_B) = false
        · exact ⟨.skipped, by simp [c1]⟩
        by_cases c2 : conv_B.data_type ≠ add_B.data_type
        · exact ⟨.skipped, by simp [c2]⟩
        by_cases c3 : conv_B.dims.length ≠ 1
        · exact ⟨.skipped, by simp [c3]⟩
        simp only [Bool.not_eq_false] at c1
        simp only [ne_eq, Decidable.not_not] at c2 c3
        obtain ⟨c0, hc0⟩ : ∃ c0, conv_B.dims[0]? = some c0 :=
          ⟨conv_B.dims[0], List.getElem?_eq_getElem (by omega)⟩
        simp only [c1, c2, c3, hc0, Bool.not_true, bne_self_eq_false, Bool.or_self,
          Bool.false_eq_true, ↓reduceIte]
        by_cases c4 : c0 = w0
        swap
        · exact ⟨.skipped, by simp [c4]⟩
        subst c4
        simp only [Initializer.ofProto, c1, h1, ↓reduceIte, bne_self_eq_false, Bool.false_eq_true,
          Initializer.size]
        by_cases c5 : conv_B.dims.prod = add_B.dims.prod
        · exact ⟨_, by simp [c5]; rfl⟩
        · exact ⟨.skipped, by simp [c5]⟩
    · simp only [hlen, ↓reduceIte, ConvAddFusion.promoteToBias]
      cases harg : graph.GetNodeArg add_B.name with
      | none => exact ⟨_, rfl⟩
      | some arg => exact ⟨_, by simp [harity]; rfl⟩


/-- `Apply` is all-or-nothing on a node that `SatisfyCondition` accepts, when the
lookups of lines 16 to 26 find what they read and the arity list of the Conv has a slot
2: it returns success, and either a check has failed and the graph and both flags are
as on entry, or lines 44 to 93 have rewritten the graph, the splice-out of the Add has
succeeded, `modified` is true and the Add node is gone. -/
theorem ConvAddFusion.Apply_all_or_nothing [Add α] (kOnnxDomain : String) (graph : Graph α)
    (node add : NodeIndex) (conv_node add_node : Node) (w_name b_name : String)
    (conv_W : TensorProto α) (modified removed : Bool)
    (hsat : ConvAddFusion.SatisfyCondition kOnnxDomain graph node = true)
    (hconv : graph.GetNode node = some conv_node)
    (hadd : graph.OutputNodesBegin node = some add)
    (haddn : graph.GetNode add = some add_node)
    (hw : conv_node.input_defs[1]? = some w_name)
    (hb : add_node.input_defs[1]? = some b_name)
    (hW : graph.GetInitializedTensor w_name = some conv_W)
    (harity : 2 < conv_node.input_arg_count.length) :
    ∃ res, ConvAddFusion.Apply graph node modified removed = some res ∧
      res.status = Status.OK ∧
      ((ConvAddFusion.ApplyFusion graph node = some .skipped ∧
          res.graph = graph ∧ res.modified = modified ∧ res.deleted = removed) ∨
        ∃ g1, ConvAddFusion.ApplyFusion graph node = some (.fused g1 add) ∧
          (RemoveSingleInputNode g1 add).1 = true ∧
          res.graph = (RemoveSingleInputNode g1 add).2 ∧
          res.modified = true ∧
          res.graph.GetNode add = none) := by
  obtain ⟨outcome, ho⟩ := ConvAddFusion.ApplyFusion_defined hconv hadd haddn hw hb hW harity
  cases outcome with
  | skipped =>
    exact ⟨_, ConvAddFusion.Apply_of_skipped ho modified removed, rfl, Or.inl ⟨ho, rfl, rfl, rfl⟩⟩
  | fused g1 a =>
    have hs := ConvAddFusion.splice_out_succeeds kOnnxDomain graph g1 node a hsat ho
    obtain ⟨_, add_node', _, _, _, _, _, _, hadd', _⟩ := ConvAddFusion.ApplyFusion_fused_inv ho
    have ha : a = add := Option.some.inj (hadd'.symm.trans hadd)
    subst ha
    refine ⟨_, ConvAddFusion.Apply_of_fused ho modified removed, rfl,
      Or.inr ⟨g1, ho, hs, rfl, by simp [hs], ?_⟩⟩
    rcases RemoveSingleInputNode_cases g1 a with h' | ⟨an, e, x, -, -, -, h'⟩
    · rw [h'] at hs
      cases hs
    · simp only [h']
      rw [GetNode_spliced]
      simp

/-- C11 (the code at the failing input): on `Example.weightIsInput` the predicate is true
at the Conv node, so `CheckConditionAndApply` enters `Apply`.  The weight is not a
registered initializer, lines 16 to 93 have no result (the read through the null
pointer of line 31), the splice-out of the Add is never reached, and `Apply` has no
result whatever the flags are on entry: it does not report success. -/
theorem C11_no_success_report_without_weight :
    ConvAddFusion.SatisfyCondition "" Example.weightIsInput 0 = true ∧
    (ConvAddFusion.rule "ConvAddFusion" "" ["Conv"] "").CheckConditionAndApply
        Example.weightIsInput 0 false false = ⟨none, 1⟩ ∧
    ConvAddFusion.ApplyFusion Example.weightIsInput 0 = none ∧
    (∀ modified removed : Bool,
      ConvAddFusion.Apply Example.weightIsInput 0 modified removed = none) :=
  ⟨by decide, by decide, by decide, by decide⟩

/-- C12: target-op-type filtering by the driver.  In every run of the driver, each recorded
call of `CheckConditionAndApply` (the only place where `SatisfyCondition` and `Apply` of
a rule are called) for a rule with the target set `{"Identity"}` was made on a node of
operator type `Identity`: for a node of another type neither the predicate is called
nor `Apply` run.  And a rule with an empty target set is invoked on a live node of
whatever operator type when its turn comes: the call is recorded. -/
theorem C12_rule_consulted_only_for_targeted_op_types (rules : List (RewriteRule (Graph α))) (max_passes : Nat) (graph : Graph α)
    (status : Status) (s : DriverState α)
    (hrun : Driver.run rules max_passes (Driver.start graph) = some (status, s)) :
    (∀ c ∈ s.calls, ∀ r, rules[c.rule]? = some r → r.TargetOpTypes = ["Identity"] →
      c.op_type = "Identity") ∧
    (∀ (r : RewriteRule (Graph α)) (k : Nat) (node : NodeIndex) (n : Node) (s0 : DriverState α)
        (res : RuleResult (Graph α)),
      r.TargetOpTypes = [] → s0.graph.GetNode node = some n → node ∉ s0.deleted →
      (r.CheckConditionAndApply s0.graph node false false).result = some res →
      ∃ st s1, Driver.applyRules [(k, r)] node s0 = some (st, s1) ∧
        s1.calls = s0.calls ++ [⟨k, node, n.op_type,
          (r.CheckConditionAndApply s0.graph node false false).applyCalls⟩]) := by
  constructor
  · intro c hc r hr htargets
    have hinv := Driver.run_targeted rules max_passes _ status s hrun
      (by intro c hc; simp [Driver.start] at hc)
    obtain ⟨r', hr', ht⟩ := hinv c hc
    rw [hr] at hr'
    cases hr'
    rw [htargets] at ht
    exact isTargeted_singleton ht
  · intro r k node n s0 res htargets hn hdel hres
    simp only [Driver.applyRules, hdel, ↓reduceIte, hn, htargets, isTargeted, List.isEmpty_nil,
      Bool.true_or, hres]
    cases res.status
    · exact ⟨_, _, rfl, rfl⟩
    · exact ⟨_, _, rfl, rfl⟩

/-- C12, for the registry of `Example.identityOnly` and `Example.everyOpType` on
`Example.noBias`: only the rule with the empty target set is invoked, on the Conv, the
Add and the Relu. -/
theorem C12_rule_consulted_only_for_targeted_op_types_witness :
    Driver.run [Example.identityOnly, Example.everyOpType] 5 (Driver.start Example.noBias) =
      some (Status.OK, ⟨Example.noBias, false, [],
        [⟨1, 0, "Conv", 1⟩, ⟨1, 1, "Add", 1⟩, ⟨1, 2, "Relu", 1⟩]⟩) ∧
    (∀ c ∈ [(⟨1, 0, "Conv", 1⟩ : RuleCall), ⟨1, 1, "Add", 1⟩, ⟨1, 2, "Relu", 1⟩],
      ∀ r, [Example.identityOnly, Example.everyOpType][c.rule]? = some r →
        r.TargetOpTypes = ["Identity"] → c.op_type = "Identity") :=
  ⟨rfl, (C12_rule_consulted_only_for_targeted_op_types
    [Example.identityOnly, Example.everyOpType] 5 Example.noBias Status.OK
    ⟨Example.noBias, false, [], [⟨1, 0, "Conv", 1⟩, ⟨1, 1, "Add", 1⟩, ⟨1, 2, "Relu", 1⟩]⟩ rfl).1⟩

/-- C13 (as stated, refuted): `EliminateSlice` passes only its name to the constructor of
`RewriteRule`, no target set.  With a constructor that stores the empty set, the default
of the class comment, the base class holds the empty set while `TargetOpTypes()` of
the rule returns `{"Slice"}`, from the member function of the class. -/
theorem C13_EliminateSlice_targets_not_from_constructor_counterexample :
    (EliminateSlice "" [] (fun (_ : Graph ℚ) _ => false)
        (fun g _ modified deleted => some ⟨Status.OK, g, modified, deleted⟩)).TargetOpTypes
      = ["Slice"] ∧
    (EliminateSlice "" [] (fun (_ : Graph ℚ) _ => false)
        (fun g _ modified deleted => some ⟨Status.OK, g, modified, deleted⟩)).base.target_op_types_
      = [] :=
  ⟨rfl, rfl⟩

/-- C13 (amended): after any sequence of calls of `CheckConditionAndApply`, a rule built by
the constructor of `RewriteRule` answers `Name()`, `Description()` and `TargetOpTypes()`
with the three arguments of the constructor; for `EliminateIdentity` these are
`"EliminateIdentity"`, `"Eliminate identity node"` and `{"Identity"}`.  `EliminateSlice`
answers `Name()` with the name it passed, `"EliminateSlice"`, and `TargetOpTypes()` with
the list `{"Slice"}` of its own member function. -/
theorem C13_identity_fixed_at_construction {G : Type} (name desc : String) (target_op_types : List String)
    (SatisfyCondition : G → NodeIndex → Bool)
    (Apply : G → NodeIndex → Bool → Bool → Option (RuleResult G))
    (calls : List (G × NodeIndex × Bool × Bool)) :
    ((RewriteRule.mk name desc target_op_types SatisfyCondition Apply).afterCalls calls).Name
      = name ∧
    ((RewriteRule.mk name desc target_op_types SatisfyCondition Apply).afterCalls calls).Description
      = desc ∧
    ((RewriteRule.mk name desc target_op_types SatisfyCondition Apply).afterCalls calls).TargetOpTypes
      = target_op_types ∧
    ((EliminateIdentity SatisfyCondition Apply).afterCalls calls).Name = "EliminateIdentity" ∧
    ((EliminateIdentity SatisfyCondition Apply).afterCalls calls).Description
      = "Eliminate identity node" ∧
    ((EliminateIdentity SatisfyCondition Apply).afterCalls calls).TargetOpTypes = ["Identity"] ∧
    ((EliminateSlice desc target_op_types SatisfyCondition Apply).afterCalls calls).Name
      = "EliminateSlice" ∧
    ((EliminateSlice desc target_op_types SatisfyCondition Apply).afterCalls calls).TargetOpTypes
      = ["Slice"] := by
  simp only [OverridingRule.afterCalls, RewriteRule.afterCalls_eq]
  exact ⟨rfl, rfl, rfl, rfl, rfl, rfl, rfl, rfl⟩

/-- C14: the target-op-type set of `EliminateIdentity` is exactly `{"Identity"}` and
`TargetOpTypes()` of `EliminateSlice` is exactly the single type `"Slice"`; neither is
empty, and neither lets a node of another operator type, such as a Conv, through the
pre-filter. -/
theorem C14_elimination_rules_target_own_op_type {G : Type} (desc : String) (target_op_types : List String)
    (SatisfyCondition SatisfyCondition' : G → NodeIndex → Bool)
    (Apply Apply' : G → NodeIndex → Bool → Bool → Option (RuleResult G)) :
    (EliminateIdentity SatisfyCondition Apply).TargetOpTypes = ["Identity"] ∧
    (EliminateSlice desc target_op_types SatisfyCondition' Apply').TargetOpTypes = ["Slice"] ∧
    (EliminateIdentity SatisfyCondition Apply).TargetOpTypes ≠ [] ∧
    (EliminateSlice desc target_op_types SatisfyCondition' Apply').TargetOpTypes ≠ [] ∧
    isTargeted (EliminateIdentity SatisfyCondition Apply).TargetOpTypes "Conv" = false ∧
    isTargeted (EliminateSlice desc target_op_types SatisfyCondition' Apply').TargetOpTypes "Conv"
      = false := by
  refine ⟨rfl, rfl, ?_, ?_, ?_, ?_⟩
  · simp [EliminateIdentity, RewriteRule.TargetOpTypes]
  · simp [EliminateSlice]
  · show isTargeted ["Identity"] "Conv" = false
    decide
  · show isTargeted ["Slice"] "Conv" = false
    decide

/-- C15: on a live Conv node that does not read its own outputs (the graph is acyclic),
whenever `Apply` returns, the flag `removed` has the value it had on entry and the node
is still live under its index with the same operator type and the same outputs. -/
theorem C15_conv_node_is_kept [Add α] (graph : Graph α) (node : NodeIndex) (conv_node : Node)
    (modified removed : Bool) (res : RuleResult (Graph α))
    (hconv : graph.GetNode node = some conv_node)
    (hdag : ∀ y ∈ conv_node.output_defs, y ∉ conv_node.input_defs)
    (hres : ConvAddFusion.Apply graph node modified removed = some res) :
    res.deleted = removed ∧
    ∃ conv_node', res.graph.GetNode node = some conv_node' ∧
      conv_node'.op_type = conv_node.op_type ∧
      conv_node'.output_defs = conv_node.output_defs := by
  unfold ConvAddFusion.Apply at hres
  split at hres
  · cases hres
  · cases hres
    exact ⟨rfl, conv_node, hconv, rfl, rfl⟩
  · rename_i g1 a hf
    simp only [Option.some.injEq] at hres
    subst hres
    refine ⟨rfl, ?_⟩
    obtain ⟨conv1, hc1, hop, hout⟩ := ConvAddFusion.ApplyFusion_fused_conv hconv hf
    obtain ⟨_, _, _, _, _, _, _, hconv', hadd, -⟩ := ConvAddFusion.ApplyFusion_fused_inv hf
    have hne : a ≠ node := Graph.OutputNodesBegin_ne_self hconv hadd hdag
    rcases RemoveSingleInputNode_cases g1 a with h' | ⟨an, e, x, -, -, -, h'⟩
    · simp only [h']
      exact ⟨conv1, hc1, hop, hout⟩
    · simp only [h']
      rw [GetNode_spliced]
      simp only [hne, ↓reduceIte, hc1, Option.map_some']
      exact ⟨_, rfl, hop, hout⟩

/-- C15, at the Conv node of `Example.noBias`. -/
theorem C15_conv_node_is_kept_witness :
    ConvAddFusion.Apply Example.noBias 0 false false =
      some ⟨Status.OK, Example.noBiasFused, true, false⟩ ∧
    ∃ conv_node', Example.noBiasFused.GetNode 0 = some conv_node' ∧
      conv_node'.op_type = "Conv" ∧ conv_node'.output_defs = ["Y"] :=
  ⟨rfl, (C15_conv_node_is_kept Example.noBias 0
    (Example.mkNode "Conv" 1 ["X", "W"] ["Y"] [1, 1, 0]) false false
    ⟨Status.OK, Example.noBiasFused, true, false⟩ (by decide) (by decide) rfl).2⟩

/-- C16: whatever way lines 16 to 93 of `Apply` end (the splice-out excluded), the graph
they leave has the same set of initializer names as before, every name other than the
one in input slot 2 of the Conv (Conv with 3 inputs) or in input slot 1 of the Add
(otherwise) resolves to the tensor it resolved to before, and for a Conv with 3 inputs
the entry of B is unchanged. -/
theorem C16_at_most_one_initializer_rewritten [Add α] (graph : Graph α) (node add : NodeIndex) (conv_node add_node : Node)
    (outcome : ConvAddFusion.Rewrite α)
    (hconv : graph.GetNode node = some conv_node)
    (hadd : graph.OutputNodesBegin node = some add)
    (haddn : graph.GetNode add = some add_node)
    (hout : ConvAddFusion.ApplyFusion graph node = some outcome) :
    (∀ n, n ∈ (outcome.graphAfter graph).initializers.map (fun t => t.name) ↔
      n ∈ graph.initializers.map (fun t => t.name)) ∧
    (∀ n, (if conv_node.input_defs.length = 3 then conv_node.input_defs[2]?
        else add_node.input_defs[1]?) ≠ some n →
      (outcome.graphAfter graph).GetInitializedTensor n = graph.GetInitializedTensor n) ∧
    (conv_node.input_defs.length = 3 → ∀ b_name, add_node.input_defs[1]? = some b_name →
      (outcome.graphAfter graph).GetInitializedTensor b_name =
        graph.GetInitializedTensor b_name) := by
  cases outcome with
  | skipped => exact ⟨fun _ => Iff.rfl, fun _ _ => rfl, fun _ _ _ => rfl⟩
  | fused g1 a =>
    show (∀ n, n ∈ g1.initializers.map (fun t => t.name) ↔
        n ∈ graph.initializers.map (fun t => t.name)) ∧
      (∀ n, (if conv_node.input_defs.length = 3 then conv_node.input_defs[2]?
          else add_node.input_defs[1]?) ≠ some n →
        g1.GetInitializedTensor n = graph.GetInitializedTensor n) ∧
      (conv_node.input_defs.length = 3 → ∀ b_name, add_node.input_defs[1]? = some b_name →
        g1.GetInitializedTensor b_name = graph.GetInitializedTensor b_name)
    obtain ⟨conv_node', add_node', w_name, b_name, conv_W, add_B, w0, hconv', hadd', haddn', hw,
      hb, hW, hB, hsup, hrankW, hrankB, hw0, hb0, hones, hbranch⟩ :=
      ConvAddFusion.ApplyFusion_fused_inv hout
    rw [hconv] at hconv'
    cases hconv'
    rw [hadd] at hadd'
    cases hadd'
    rw [haddn] at haddn'
    cases haddn'
    rcases hbranch with ⟨hlen, bias_name, conv_B, hbias, hCb, -, -, hdims, hg⟩ |
      ⟨hlen, arg, harg, harity, hg⟩
    · have hCbn : conv_B.name = bias_name := Graph.GetInitializedTensor_name hCb
      have hnames : b_name ≠ bias_name := by
        intro heq
        rw [heq, hCb] at hB
        cases hB
        rw [hdims] at hrankB
        simp at hrankB
        omega
      rw [hCbn] at hg
      subst hg
      refine ⟨?_, ?_, ?_⟩
      · intro n
        exact Graph.initializer_names_replaced graph
          ⟨bias_name, conv_B.data_type, conv_B.dims,
            List.zipWith (fun x y => x + y) conv_B.data add_B.data⟩ conv_B hCb n
      · intro n hn
        simp only [hlen, ↓reduceIte, hbias, ne_eq, Option.some.injEq] at hn
        exact Graph.GetInitializedTensor_other graph
          ⟨bias_name, conv_B.data_type, conv_B.dims,
            List.zipWith (fun x y => x + y) conv_B.data add_B.data⟩ (Ne.symm hn)
      · intro _ b hb'
        rw [hb] at hb'
        cases hb'
        exact Graph.GetInitializedTensor_other graph
          ⟨bias_name, conv_B.data_type, conv_B.dims,
            List.zipWith (fun x y => x + y) conv_B.data add_B.data⟩ hnames
    · have hBn : add_B.name = b_name := Graph.GetInitializedTensor_name hB
      subst hg
      refine ⟨?_, ?_, ?_⟩
      · intro n
        have := Graph.initializer_names_replaced graph { add_B with dims := [w0] } add_B
          (by rw [hBn]; exact hB) n
        exact this
      · intro n hn
        simp only [hlen, ↓reduceIte, hb, ne_eq, Option.some.injEq] at hn
        have := Graph.GetInitializedTensor_other graph ({ add_B with dims := [w0] } : TensorProto α)
          (m := n) (by rw [hBn]; exact Ne.symm hn)
        exact this
      · intro h3
        exact absurd h3 hlen

/-- C16, at the Conv node of `Example.withBias`, where the bias `Cb` is rewritten. -/
theorem C16_at_most_one_initializer_rewritten_witness :
    ConvAddFusion.ApplyFusion Example.withBias 0 = some (.fused
      ((Example.withBias.RemoveInitializedTensor "Cb").AddInitializedTensor
        ⟨"Cb", 1, [2], List.zipWith (fun x y => x + y) Example.convBias.data Example.addB.data⟩)
      1) ∧
    ((Example.withBias.RemoveInitializedTensor "Cb").AddInitializedTensor
        ⟨"Cb", 1, [2], List.zipWith (fun x y => x + y) Example.convBias.data
          Example.addB.data⟩).GetInitializedTensor "B" =
      Example.withBias.GetInitializedTensor "B" :=
  ⟨rfl, (C16_at_most_one_initializer_rewritten Example.withBias 0 1
    (Example.mkNode "Conv" 1 ["X", "W", "Cb"] ["Y"] [1, 1, 0])
    (Example.mkNode "Add" 7 ["Y", "B"] ["Z"] [1, 1])
    (.fused ((Example.withBias.RemoveInitializedTensor "Cb").AddInitializedTensor
        ⟨"Cb", 1, [2], List.zipWith (fun x y => x + y) Example.convBias.data Example.addB.data⟩)
      1)
    (by decide) (by decide) (by decide) rfl).2.2 rfl "B" rfl⟩

/-- C17: in the branch of `Apply` for a Conv without bias, when the checks have passed and
B is rewritten, the dims of B were `[C, 1, ..., 1]` with `C` the leading dim of the
weight, the new entry of B has the dims `[C]` and the payload of B, the product of the
old dims equals the product of the new dims, which is `C`, and a payload length that
was consistent with the old dims is consistent with the new ones. -/
theorem C17_reshape_preserves_element_count [Add α] (graph g1 : Graph α) (node add : NodeIndex) (conv_node : Node)
    (hconv : graph.GetNode node = some conv_node)
    (hlen : conv_node.input_defs.length ≠ 3)
    (hfused : ConvAddFusion.ApplyFusion graph node = some (.fused g1 add)) :
    ∃ add_node w_name b_name conv_W add_B new_B C,
      graph.GetNode add = some add_node ∧
      conv_node.input_defs[1]? = some w_name ∧
      add_node.input_defs[1]? = some b_name ∧
      graph.GetInitializedTensor w_name = some conv_W ∧
      conv_W.dims[0]? = some C ∧
      graph.GetInitializedTensor b_name = some add_B ∧
      add_B.dims = C :: List.replicate (add_B.dims.length - 1) 1 ∧
      g1.GetInitializedTensor b_name = some new_B ∧
      new_B.dims = [C] ∧
      new_B.data = add_B.data ∧
      add_B.dims.prod = new_B.dims.prod ∧
      new_B.dims.prod = C ∧
      ((add_B.data.length : Int) = add_B.dims.prod →
        (new_B.data.length : Int) = new_B.dims.prod) := by
  obtain ⟨conv_node', add_node, w_name, b_name, conv_W, add_B, w0, hconv', hadd, haddn, hw,
    hb, hW, hB, hsup, hrankW, hrankB, hw0, hb0, hones, hbranch⟩ :=
    ConvAddFusion.ApplyFusion_fused_inv hfused
  rw [hconv] at hconv'
  cases hconv'
  rcases hbranch with ⟨hlen3, -⟩ | ⟨-, arg, harg, harity, hg⟩
  · exact absurd hlen3 hlen
  have hBn : add_B.name = b_name := Graph.GetInitializedTensor_name hB
  obtain ⟨hshape, hprod⟩ := dims_eq_cons_replicate hb0 hones
  have hnew : g1.GetInitializedTensor b_name = some { add_B with dims := [w0] } := by
    subst hg
    have := Graph.GetInitializedTensor_replaced graph ({ add_B with dims := [w0] } : TensorProto α)
    simp only [Graph.GetInitializedTensor, Graph.setNode, Graph.SetShape] at this ⊢
    rw [← hBn]
    exact this
  refine ⟨add_node, w_name, b_name, conv_W, add_B, { add_B with dims := [w0] }, w0, haddn, hw,
    hb, hW, hw0, hB, hshape, hnew, rfl, rfl, ?_, ?_, ?_⟩
  · rw [hprod]; simp
  · simp
  · intro hwf
    rw [hprod] at hwf
    simpa using hwf

/-- C17, at the Conv node of `Example.noBias`: dims `[2,1,1]` become `[2]`. -/
theorem C17_reshape_preserves_element_count_witness :
    ∃ add_node w_name b_name conv_W add_B new_B C,
      Example.noBias.GetNode 1 = some add_node ∧
      (Example.mkNode "Conv" 1 ["X", "W"] ["Y"] [1, 1, 0]).input_defs[1]? = some w_name ∧
      add_node.input_defs[1]? = some b_name ∧
      Example.noBias.GetInitializedTensor w_name = some conv_W ∧
      conv_W.dims[0]? = some C ∧
      Example.noBias.GetInitializedTensor b_name = some add_B ∧
      add_B.dims = C :: List.replicate (add_B.dims.length - 1) 1 ∧
      ((((Example.noBias.RemoveInitializedTensor "B").AddInitializedTensor
          { Example.addB with dims := [2] }).SetShape "B" [2]).setNode 0
        (Example.mkNode "Conv" 1 ["X", "W", "B"] ["Y"] [1, 1, 1])).GetInitializedTensor b_name
        = some new_B ∧
      new_B.dims = [C] ∧
      new_B.data = add_B.data ∧
      add_B.dims.prod = new_B.dims.prod ∧
      new_B.dims.prod = C ∧
      ((add_B.data.length : Int) = add_B.dims.prod →
        (new_B.data.length : Int) = new_B.dims.prod) :=
  C17_reshape_preserves_element_count Example.noBias
    ((((Example.noBias.RemoveInitializedTensor "B").AddInitializedTensor
        { Example.addB with dims := [2] }).SetShape "B" [2]).setNode 0
      (Example.mkNode "Conv" 1 ["X", "W", "B"] ["Y"] [1, 1, 1]))
    0 1 (Example.mkNode "Conv" 1 ["X", "W"] ["Y"] [1, 1, 0]) (by decide) (by decide) rfl

/-- C18: in the branch of `Apply` for a Conv with bias, once the bias is found with a
supported element type, the element type of B, rank 1 and the leading dim of B, and
the dims of B after the first are all 1, the two views have the same element count
(the product of the dims), so the test `conv_B->size() != add_B->size()` is false and
the branch goes on to the rewrite; and when both payloads are consistent with their
dims, the element-wise add gets operands of equal length. -/
theorem C18_size_mismatch_exit_unreachable [Add α] (graph : Graph α) (conv_inputs : List String) (add_index : NodeIndex)
    (bias_name : String) (conv_B add_B : TensorProto α) (b0 : Int)
    (hbias : conv_inputs[2]? = some bias_name)
    (hCb : graph.GetInitializedTensor bias_name = some conv_B)
    (hsupC : Initializer.IsSupportedDataType (some conv_B) = true)
    (hsupB : Initializer.IsSupportedDataType (some add_B) = true)
    (htype : conv_B.data_type = add_B.data_type)
    (hrank : conv_B.dims.length = 1)
    (hc0 : conv_B.dims[0]? = some b0)
    (hb0 : add_B.dims[0]? = some b0)
    (hones : ∀ d ∈ add_B.dims.drop 1, d = 1) :
    ∃ cB aB,
      Initializer.ofProto conv_B = some cB ∧
      Initializer.ofProto add_B = some aB ∧
      cB.size = aB.size ∧
      ConvAddFusion.fuseIntoBias graph conv_inputs add_index add_B b0 =
        some (.fused ((graph.RemoveInitializedTensor bias_name).AddInitializedTensor
          (cB.add aB).ToProto) add_index) ∧
      ((conv_B.data.length : Int) = conv_B.dims.prod →
        (add_B.data.length : Int) = add_B.dims.prod →
        cB.data_.length = aB.data_.length) := by
  have hBprod : add_B.dims.prod = b0 := (dims_eq_cons_replicate hb0 hones).2
  have hCdims : conv_B.dims = [b0] := by
    match hd : conv_B.dims, hrank, hc0 with
    | [x], _, hx =>
      simp only [List.getElem?_cons_zero, Option.some.injEq] at hx
      rw [hx]
  have hCprod : conv_B.dims.prod = b0 := by rw [hCdims]; simp
  have hsize : conv_B.dims.prod = add_B.dims.prod := by rw [hCprod, hBprod]
  refine ⟨⟨conv_B.name, conv_B.data_type, conv_B.dims, conv_B.data⟩,
    ⟨add_B.name, add_B.data_type, add_B.dims, add_B.data⟩, ?_, ?_, hsize, ?_, ?_⟩
  · simp [Initializer.ofProto, hsupC]
  · simp [Initializer.ofProto, hsupB]
  · simp only [ConvAddFusion.fuseIntoBias, hbias, hCb, hsupC, htype, hrank, hc0,
      Initializer.ofProto, hsupB, Initializer.size, hsize]
    simp [hsize]
  · intro h1 h2
    have : (conv_B.data.length : Int) = (add_B.data.length : Int) := by
      rw [h1, h2, hsize]
    exact_mod_cast this

/-- C18, for the bias `Cb` and the constant `B` of `Example.withBias`. -/
theorem C18_size_mismatch_exit_unreachable_witness :
    ∃ cB aB,
      Initializer.ofProto Example.convBias = some cB ∧
      Initializer.ofProto Example.addB = some aB ∧
      cB.size = aB.size ∧
      ConvAddFusion.fuseIntoBias Example.withBias ["X", "W", "Cb"] 1 Example.addB 2 =
        some (.fused ((Example.withBias.RemoveInitializedTensor "Cb").AddInitializedTensor
          (cB.add aB).ToProto) 1) ∧
      ((Example.convBias.data.length : Int) = Example.convBias.dims.prod →
        (Example.addB.data.length : Int) = Example.addB.dims.prod →
        cB.data_.length = aB.data_.length) :=
  C18_size_mismatch_exit_unreachable Example.withBias ["X", "W", "Cb"] 1 "Cb"
    Example.convBias Example.addB 2 rfl rfl (by decide) (by decide) rfl rfl rfl rfl (by decide)

end onnxruntime
